import Mathlib

/-!
Verification of the cpp-vcd-tracer library (src/src/vcd_tracer.{hpp,ipp,cpp})
against its natural-language specification.

This file gives a shallow embedding of the library:

* the VCD identifier generator (identifier_generator::next),
* the value encoder (value_base::dump, monomorphised over the element kind),
* the buffered per-signal sample store (value<T, BIT_SIZE, TRACE_DEPTH,
  CUR_SEQ> with set / set_state / dump),
* the scope tree (module / module_instance with add_var and
  finalize_header), and
* the trace session (top with log_time, time_update_core,
  time_update_delta, time_update_abs and the tail of finalize_header).

Output streams are modelled as lists of lines: every operator<< group in
the C++ source terminates in a newline, so a List String where each
element is one line (without the newline character) is a faithful image
of the byte stream.  Machine integers are modelled as Nat (uint64_t
sequence numbers and timestamps, reduced mod 2^64 where the C++ value
can wrap) and Int (the int64_t chrono tick counts), with the C++
integral conversions written out explicitly.
-/

set_option maxRecDepth 100000

namespace VcdTracer

/-- Embeds enum class value_state of vcd_tracer.hpp. -/
inductive value_state where
  | unknown_x
  | undriven_z
  | known
deriving DecidableEq, Repr

/-- The element kind a value<T, ...> template was instantiated at.  The
C++ value_base::dump dispatches with if-constexpr on the element type T:
bool gets the scalar encoding, all other integral types get the vector
b-encoding.  (The floating-point instantiations emit an r-encoding of a
formatted double; floating-point formatting is outside this model.) -/
inductive elem_kind where
  | boolK
  | intK
deriving DecidableEq, Repr

/-- Embeds struct sample of vcd_tracer.hpp: one buffered slot.  The C++
default member initialisers give sequence = uint64_t(-1) and
state = unknown_x; the value member is uninitialised in C++ and is
modelled as 0 (no reachable execution in this file reads it before it is
set). -/
structure sample where
  sequence : Nat := 2 ^ 64 - 1
  state : value_state := .unknown_x
  value : Nat := 0
deriving DecidableEq, Repr

instance : Inhabited sample := ⟨{}⟩

-- ------------------------------------------------------------------
-- identifier_generator (vcd_tracer.ipp lines 24-61)

def VCD_NAME_START : Nat := 33   -- the character !
def VCD_NAME_END : Nat := 122    -- the character z

/-- Embeds class identifier_generator: the state is the list of character
codes currently stored in the 16-byte array, of length _size. -/
structure identifier_generator where
  ident : List Nat := []
deriving DecidableEq, Repr

/-- Increment helper for identifier_generator::next, acting on the
REVERSED character list (the C++ loop walks from the last character
backwards).  Characters equal to VCD_NAME_END wrap to VCD_NAME_START and
the carry continues; none means every position wrapped. -/
def incr_rev : List Nat → Option (List Nat)
  | [] => none
  | c :: rest =>
    if c = VCD_NAME_END then
      match incr_rev rest with
      | some rest2 => some (VCD_NAME_START :: rest2)
      | none => none
    else
      some ((c + 1) :: rest)

def string_of_codes (codes : List Nat) : String :=
  String.mk (codes.map Char.ofNat)

/-- Embeds identifier_generator::next (vcd_tracer.ipp).  Returns the new
generator state together with the returned identifier string. -/
def identifier_generator.next (g : identifier_generator) :
    identifier_generator × String :=
  if g.ident.length = 16 then
    (g, string_of_codes g.ident)
  else if g.ident.length = 0 then
    ({ ident := [VCD_NAME_START] }, string_of_codes [VCD_NAME_START])
  else
    match incr_rev g.ident.reverse with
    | some r =>
      ({ ident := r.reverse }, string_of_codes r.reverse)
    | none =>
      -- every position wrapped to VCD_NAME_START; a new column is added
      let l := List.replicate (g.ident.length + 1) VCD_NAME_START
      ({ ident := l }, string_of_codes l)

/-- The identifier returned by call number n (counting from 0) of next()
on a freshly constructed generator. -/
def nth_identifier (n : Nat) : String :=
  let g := (List.range n).foldl (fun g _ => (identifier_generator.next g).1)
    ({} : identifier_generator)
  (identifier_generator.next g).2

-- ------------------------------------------------------------------
-- value_base::dump, the VCD value encoder (vcd_tracer.cpp lines 268-321)

def bit_char (b : Bool) : Char := if b then '1' else '0'

/-- Embeds the bit-compression loop of value_base::dump (vcd_tracer.cpp
lines 302-317).  The arguments are the compress flag, prev_bit, and the
list of remaining this_bit values (bits bit_size-2 down to 0); the final
out << after the loop is the singleton base case. -/
def compress_loop : Bool → Bool → List Bool → List Char
  | _, prev, [] => [bit_char prev]
  | compress, prev, b :: bs =>
    if compress ∧ b = prev then
      compress_loop compress prev bs
    else
      bit_char prev :: compress_loop false b bs

/-- Embeds value_base::dump without the trailing identifier write: the
text emitted for one sample of the given element kind, declared bit
size, state and value.  For intK the value is the bit pattern of the
stored integer (Nat.testBit i is bit i of the C++ value & mask walk). -/
def value_base.dump (kind : elem_kind) (id : String) (bit_size : Nat)
    (state : value_state) (value : Nat) : String :=
  match kind with
  | .boolK =>
    match state with
    | .unknown_x => "x" ++ id
    | .undriven_z => "z" ++ id
    | .known => (if value ≠ 0 then "1" else "0") ++ id
  | .intK =>
    "b" ++
      (match state with
       | .unknown_x => "x"
       | .undriven_z => "z"
       | .known =>
         String.mk (compress_loop true (value.testBit (bit_size - 1))
           (((List.range (bit_size - 1)).reverse).map (value.testBit ·))))
      ++ " " ++ id

/-- The MSB-first bit string of a value at a given width. -/
def bits_msb (w : Nat) (v : Nat) : List Bool :=
  ((List.range w).reverse).map (v.testBit ·)

/-- Modelled from the words of the specification (section 4.2), for
comparison with the compiled compress_loop: keep exactly one copy of the
run of leading bits identical to the most significant bit, then every
bit from the first differing position through bit 0. -/
def spec_compact (bits : List Bool) : List Bool :=
  match bits with
  | [] => []
  | b :: rest => b :: rest.dropWhile (· = b)

-- ------------------------------------------------------------------
-- dump_sequence_t and the buffered signal value<T, BIT_SIZE, TRACE_DEPTH, CUR_SEQ>

/-- Embeds struct scope_fn::dump_sequence_t of vcd_tracer.hpp. -/
structure dump_sequence_t where
  dumped : Option Nat
  next : Option Nat
deriving DecidableEq, Repr

/-- Embeds scope_fn::end_sequence. -/
def end_sequence : dump_sequence_t := ⟨none, none⟩

/-- Embeds class value<T, BIT_SIZE, TRACE_DEPTH, CUR_SEQ> together with
its index<TRACE_DEPTH> member: the element kind and declared bit size,
the allocated identifier, the buffer depth, the write and read cursors
and the sample array (length = depth).  For depth 1 the read field is
unused (index<1> has no read member). -/
structure value where
  kind : elem_kind
  bit_size : Nat
  identifier : String
  depth : Nat
  write : Int
  read : Nat
  samples : List sample
deriving DecidableEq, Repr

/-- Embeds value::set (vcd_tracer.hpp lines 465-490).  The argument g is
the value of the shared sequence counter *CUR_SEQ at the call.  In the
depth-1 branch the sample specialisation has no sequence member, so the
stored sequence is left untouched. -/
def value.set (sig : value) (g v : Nat) : value :=
  if sig.depth = 1 then
    let s0 := sig.samples.getD 0 default
    if v ≠ s0.value ∨ s0.state ≠ .known then
      { sig with samples := sig.samples.set 0 { s0 with state := .known, value := v },
                 write := 1 }
    else sig
  else
    if sig.write = -1 then
      -- the write index moves from -1 to 0 and slot 0 is set
      { sig with write := 0,
                 samples := sig.samples.set 0 { sequence := g, state := .known, value := v } }
    else
      let cur := sig.samples.getD (sig.write.toNat % sig.depth) default
      if sig.write < sig.depth ∧ (v ≠ cur.value ∨ cur.state ≠ .known) then
        let w2 := if cur.sequence ≠ g then sig.write + 1 else sig.write
        if w2 < sig.depth then
          { sig with write := w2,
                     samples := sig.samples.set (w2.toNat % sig.depth)
                       { sequence := g, state := .known, value := v } }
        else
          -- buffer full: the sample is dropped (only the index moved)
          { sig with write := w2 }
      else sig

/-- Embeds value::set_state (vcd_tracer.hpp lines 416-444); unknown()
and undriven() call this with S = unknown_x / undriven_z.  Note that
sample::set_state records the sequence and state but keeps the value
member of the targeted slot. -/
def value.set_state (sig : value) (g : Nat) (S : value_state) : value :=
  if sig.depth = 1 then
    let s0 := sig.samples.getD 0 default
    if s0.state ≠ S then
      { sig with samples := sig.samples.set 0 { s0 with state := S }, write := 1 }
    else sig
  else
    if sig.write = -1 then
      let s0 := sig.samples.getD 0 default
      { sig with write := 0,
                 samples := sig.samples.set 0 { s0 with sequence := g, state := S } }
    else
      let cur := sig.samples.getD (sig.write.toNat % sig.depth) default
      if sig.write < sig.depth ∧ cur.state ≠ S then
        let w2 := if cur.sequence ≠ g then sig.write + 1 else sig.write
        if w2 < sig.depth then
          let target := sig.samples.getD (w2.toNat % sig.depth) default
          { sig with write := w2,
                     samples := sig.samples.set (w2.toNat % sig.depth)
                       { target with sequence := g, state := S } }
        else { sig with write := w2 }
      else sig

/-- Embeds value::dump (vcd_tracer.ipp lines 71-127).  Returns the
updated signal, the lines written, and the dump_sequence_t result.  The
buffered branch is the CUR_SEQ ≠ nullptr instantiation (a value with
TRACE_DEPTH > 1 and CUR_SEQ = nullptr does not compile, since set and
set_state dereference CUR_SEQ in their buffered branches). -/
def value.dump (sig : value) (start : Bool) : value × List String × dump_sequence_t :=
  if sig.depth = 1 then
    -- unbuffered: if (_idx.write) — any non-zero write (1 or the
    -- initial -1) dumps the sole sample and resets write to 0
    if sig.write ≠ 0 then
      let s0 := sig.samples.getD 0 default
      ({ sig with write := 0 },
       [value_base.dump sig.kind sig.identifier sig.bit_size s0.state s0.value],
       end_sequence)
    else (sig, [], end_sequence)
  else
    let sig := if start then { sig with read := 0 } else sig
    if (sig.read : Int) > sig.write then
      ({ sig with write := -1 }, [], end_sequence)
    else
      let read_index := sig.read % sig.depth
      let smp := sig.samples.getD read_index default
      if start then
        (sig, [], ⟨none, some smp.sequence⟩)
      else
        let line := value_base.dump sig.kind sig.identifier sig.bit_size smp.state smp.value
        let sig2 := { sig with read := sig.read + 1 }
        if (sig2.read : Int) > sig2.write then
          ({ sig2 with write := -1 }, [line], ⟨some smp.sequence, none⟩)
        else
          (sig2, [line],
           ⟨some smp.sequence,
            some (sig2.samples.getD (sig2.read % sig2.depth) default).sequence⟩)

/-- Embeds the default constructor of value<> (vcd_tracer.hpp 355-359)
followed by module::elaborate: _idx.write = -1 and
_samples[0].set_state(unknown_x), which records the construction-time
counter value g into slot 0.  The uninitialised value member is
modelled as 0; it is never dumped while write = -1. -/
def value.mk_default (kind : elem_kind) (bit_size : Nat) (identifier : String)
    (depth : Nat) (g : Nat) : value :=
  { kind := kind, bit_size := bit_size, identifier := identifier, depth := depth,
    write := -1, read := 0,
    samples := (List.replicate depth (default : sample)).set 0
      { sequence := g, state := .unknown_x, value := 0 } }

-- ------------------------------------------------------------------
-- The session registry and clock: class top (vcd_tracer.cpp 82-263)

/-- A slot of top::map_data::dumper_map: either the live dumper callback
of a registered value (closing over that value object), or
scope_fn::nop_dump after the value was destroyed. -/
inductive slot_fn where
  | live (sig : value)
  | nop
deriving DecidableEq, Repr

/-- Invoke a stored dumper callback: a live slot runs value::dump on its
object; scope_fn::nop_dump writes nothing and returns end_sequence. -/
def slot_fn.dump (sl : slot_fn) (start : Bool) : slot_fn × List String × dump_sequence_t :=
  match sl with
  | .nop => (.nop, [], end_sequence)
  | .live sig =>
    let r := sig.dump start
    (.live r.1, r.2.1, r.2.2)

/-- Embeds class top: the session clock (_timestamp and _tracepoint,
both uint64_t), the registered dumper callbacks (dumper_map, kept in
ascending identifier order as std::map iteration does), and the output
stream written so far. -/
structure top where
  timestamp : Nat
  tracepoint : Nat
  dumper_map : List (String × slot_fn)
  out : List String
deriving DecidableEq, Repr

def time_line (n : Nat) : String := "#" ++ toString n

/-- Embeds top::log_time (vcd_tracer.cpp lines 102-121). -/
def top.log_time (s : top) (new_time : Nat) (force : Bool) : top :=
  if force ∨ new_time ≠ s.tracepoint then
    { s with out := s.out ++ [time_line new_time], tracepoint := new_time }
  else s

/-- Addition of uint64_t values. -/
def addmod64 (a b : Nat) : Nat := (a + b) % 2 ^ 64

/-- Subtraction of uint64_t values (wrapping). -/
def submod64 (a b : Nat) : Nat := (((a : Int) - b).emod (2 ^ 64)).toNat

/-- Embeds insertion into the std::map<sequence_t, vector<string>>
status map of top::time_update_core: status[seq].push_back(identifier),
on a key-sorted association list. -/
def status_insert : List (Nat × List String) → Nat → String → List (Nat × List String)
  | [], k, id => [(k, [id])]
  | (k2, ids) :: rest, k, id =>
    if k < k2 then (k, [id]) :: (k2, ids) :: rest
    else if k = k2 then (k2, ids ++ [id]) :: rest
    else (k2, ids) :: status_insert rest k id

/-- Embeds the lookup-and-call _var_map->dumper_map[identifier](out, b):
the map entry with the given key is invoked and updated in place. -/
def invoke_dumper : List (String × slot_fn) → String → Bool →
    List (String × slot_fn) × List String × dump_sequence_t
  | [], _, _ => ([], [], end_sequence)
  | (k, sl) :: rest, id, start =>
    if k = id then
      let r := sl.dump start
      ((k, r.1) :: rest, r.2.1, r.2.2)
    else
      let r := invoke_dumper rest id start
      ((k, sl) :: r.1, r.2.1, r.2.2)

/-- The min-tracking of first_sequence in the first pass of
top::time_update_core (vcd_tracer.cpp lines 213-218); first_unset is
modelled by Option. -/
def first_update (first : Option Nat) (dumped : Option Nat) : Option Nat :=
  match dumped with
  | none => first
  | some d =>
    match first with
    | none => some d
    | some f => if f > d then some d else some f

/-- Accumulator of the first pass of top::time_update_core. -/
structure pass_state where
  slots : List (String × slot_fn)
  outs : List String
  status : List (Nat × List String)
  first : Option Nat

/-- One iteration of the first pass of top::time_update_core
(vcd_tracer.cpp lines 203-219): the dumper is called with start = true;
a reported next sequence is filed into the status map and a reported
dumped sequence lowers the first_sequence minimum. -/
def first_pass_step (acc : pass_state) (p : String × slot_fn) : pass_state :=
  let r := p.2.dump true
  { slots := acc.slots ++ [(p.1, r.1)],
    outs := acc.outs ++ r.2.1,
    status := match r.2.2.next with
      | some q => status_insert acc.status q p.1
      | none => acc.status,
    first := first_update acc.first r.2.2.dumped }

/-- Embeds the first pass of top::time_update_core (vcd_tracer.cpp lines
196-219): every dumper is called with start = true in map (identifier)
order. -/
def first_pass (slots : List (String × slot_fn)) : pass_state :=
  slots.foldl first_pass_step ⟨[], [], [], none⟩

/-- One step of the inner loop of the second pass of
top::time_update_core (vcd_tracer.cpp lines 235-253): the dumper of one
identifier of the current bucket is invoked with start = false, and a
reported next sequence is filed back into the status map. -/
def drain_consume (acc : top × List (Nat × List String)) (id : String) :
    top × List (Nat × List String) :=
  let r := invoke_dumper acc.1.dumper_map id false
  let s2 := { acc.1 with dumper_map := r.1, out := acc.1.out ++ r.2.1 }
  let st := match r.2.2.next with
    | some nq => status_insert acc.2 nq id
    | none => acc.2
  (s2, st)

/-- Embeds the second pass of top::time_update_core (vcd_tracer.cpp
lines 224-255), made total with a fuel argument; top.core_fuel below
always exceeds the number of iterations the C++ while loop can perform,
because every iteration consumes at least one pending sample.  The
structured-binding copy of *status.begin() is the matched (seq, ids)
pair, and status.erase(status.begin()) after the inner loop is
List.drop 1 on the updated map. -/
def drain : Nat → top → List (Nat × List String) → Option Nat → top
  | 0, s, _, _ => s
  | _ + 1, s, [], _ => s
  | fuel + 1, s, (seq, ids) :: rest, first? =>
    let first := first?.getD seq
    let delta := submod64 seq first
    let s1 := s.log_time (addmod64 s.timestamp delta) false
    let step := ids.foldl drain_consume (s1, (seq, ids) :: rest)
    drain fuel step.1 (step.2.drop 1) (some first)

def slot_fuel : slot_fn → Nat
  | .nop => 1
  | .live sig => sig.depth + 2

def top.core_fuel (s : top) : Nat :=
  1 + (s.dumper_map.map (fun p => slot_fuel p.2)).sum

/-- Embeds top::time_update_core (vcd_tracer.cpp lines 193-256). -/
def top.time_update_core (s : top) : top :=
  let fp := first_pass s.dumper_map
  drain s.core_fuel { s with dumper_map := fp.slots, out := s.out ++ fp.outs }
    fp.status fp.first

/-- Embeds top::time_update_delta (vcd_tracer.cpp lines 144-163); d is
delta.count(), an int64_t number of nanoseconds; _timestamp += d is a
uint64_t += int64_t compound assignment, reducing mod 2^64. -/
def top.time_update_delta (s : top) (d : Int) : top :=
  let s := s.time_update_core
  let ts := (((s.timestamp : Int) + d).emod (2 ^ 64)).toNat
  let ts2 := if ts ≤ s.tracepoint then s.tracepoint else ts
  let s := { s with timestamp := ts2 }
  s.log_time s.timestamp false

/-- The conversion static_cast<long int>(x) of a uint64_t value
(modular, as gcc and clang implement and C++20 requires). -/
def to_int64 (n : Nat) : Int := if n < 2 ^ 63 then (n : Int) else (n : Int) - 2 ^ 64

/-- Embeds top::time_update_abs (vcd_tracer.cpp lines 165-191); t is
new_timestamp.count(), an int64_t.  In the comparison
new_timestamp_count >= _timestamp the usual arithmetic conversions turn
the int64_t operand into a uint64_t; the inner comparison is int64_t
against static_cast<long int>(_tracepoint); the final store into the
uint64_t _timestamp reduces mod 2^64. -/
def top.time_update_abs (s : top) (t : Int) : top :=
  let s := s.time_update_core
  if (t.emod (2 ^ 64)).toNat ≥ s.timestamp then
    let tc : Int := if t ≤ to_int64 s.tracepoint then to_int64 s.tracepoint else t
    let s := { s with timestamp := (tc.emod (2 ^ 64)).toNat }
    s.log_time s.timestamp false
  else s

/-- Embeds the tail of top::finalize_header (vcd_tracer.cpp lines
136-142) after the header text: the forced #0 tracepoint, the reset of
_timestamp to 0, and the initial flush.  (The $date/$timescale/$version
banner and the scope text are covered by module_instance.finalize_header
below.) -/
def top.finalize_header_body (s : top) : top :=
  let s := s.log_time 0 true
  let s := { s with timestamp := 0 }
  s.time_update_core

/-- Apply a mutation to the signal object registered under one
identifier (the registered dumper closures reference the objects, so a
method call on the object is visible through the registry). -/
def update_slot (id : String) (f : value → value) (p : String × slot_fn) :
    String × slot_fn :=
  if p.1 = id then
    match p.2 with
    | .live sig => (p.1, slot_fn.live (f sig))
    | .nop => (p.1, slot_fn.nop)
  else p

/-- A set call on a registered signal object: var.set(v) under shared
counter value g. -/
def top.set_value (s : top) (id : String) (g v : Nat) : top :=
  { s with dumper_map := s.dumper_map.map (update_slot id (fun sig => sig.set g v)) }

/-- An unknown() or undriven() call on a registered signal object. -/
def top.set_state_value (s : top) (id : String) (g : Nat) (S : value_state) : top :=
  { s with dumper_map := s.dumper_map.map (update_slot id (fun sig => sig.set_state g S)) }

/-- Replace the dumper_map entry of one identifier (first match) by
scope_fn::nop_dump, as the updater closure built in top::top does. -/
def replace_slot : List (String × slot_fn) → String → List (String × slot_fn)
  | [], _ => []
  | (k, sl) :: rest, id =>
    if k = id then (k, slot_fn.nop) :: rest
    else (k, sl) :: replace_slot rest id

/-- Embeds the value_base destructor (vcd_tracer.hpp lines 269-273): the
updater captured at registration replaces the dumper_map slot of this
identifier in the session registry with scope_fn::nop_dump. -/
def top.destroy_value (s : top) (id : String) : top :=
  { s with dumper_map := replace_slot s.dumper_map id }

-- ------------------------------------------------------------------
-- The scope tree: module / module_instance (vcd_tracer.hpp 509-634,
-- vcd_tracer.cpp 59-76)

/-- Embeds class module_instance: the instance name, the accumulated
header lines (the vcd_scope string stream), and the child instances in
creation order. -/
structure module_instance where
  instance_name : String
  vcd_scope : List String
  children : List module_instance

/-- Embeds the module constructors (vcd_tracer.hpp lines 515-545): a new
instance starts its vcd_scope buffer with its own $scope line. -/
def module_mk (name : String) : module_instance :=
  { instance_name := name,
    vcd_scope := ["$scope module " ++ name ++ " $end"],
    children := [] }

/-- The $var line written by module::add_var (vcd_tracer.hpp 602-615). -/
def var_line (var_type : String) (bit_size : Nat) (identifier var_name : String) : String :=
  "$var " ++ var_type ++ " " ++ toString bit_size ++ " " ++ identifier
    ++ " " ++ var_name ++ " $end"

/-- Embeds module::add_var appending the $var line to vcd_scope (the
identifier has already been allocated by the registration chain). -/
def module_add_var (m : module_instance) (var_type : String) (bit_size : Nat)
    (identifier var_name : String) : module_instance :=
  { m with vcd_scope := m.vcd_scope ++ [var_line var_type bit_size identifier var_name] }

/-- Embeds the child registration done by the module constructors:
parent._context->children.push_back(child context). -/
def module_add_child (m : module_instance) (c : module_instance) : module_instance :=
  { m with children := m.children ++ [c] }

/-- Embeds module::finalize_header (vcd_tracer.cpp lines 66-76): the
vcd_scope text, then every child recursively, then $upscope $end. -/
def module_instance.finalize_header (m : module_instance) : List String :=
  m.vcd_scope
    ++ (m.children.attach.map (fun c => c.1.finalize_header)).flatten
    ++ ["$upscope $end"]
decreasing_by
  have h1 := List.sizeOf_lt_of_mem c.2
  cases m
  simp_all
  omega

/-- Recogniser for a $scope module header line. -/
def is_scope_line (l : String) : Bool := ("$scope module ".data).isPrefixOf l.data

/-- Recogniser for the $upscope $end header line. -/
def is_upscope_line (l : String) : Bool := l == "$upscope $end"

/-- Declarative description of a scope tree: a name, the directly owned
variable declarations (type, bits, identifier, name) in registration
order, and the child scopes in creation order. -/
structure scope_decl where
  name : String
  vars : List (String × Nat × String × String)
  children : List scope_decl

/-- Build the module_instance tree a scope_decl describes through the
constructor operations (module_mk, module_add_var, module_add_child). -/
def build_module (d : scope_decl) : module_instance :=
  let m := d.vars.foldl (fun m v => module_add_var m v.1 v.2.1 v.2.2.1 v.2.2.2)
    (module_mk d.name)
  d.children.attach.foldl (fun acc c => module_add_child acc (build_module c.1)) m
decreasing_by
  have h1 := List.sizeOf_lt_of_mem c.2
  cases d
  simp_all
  omega

/-- Modelled from the words of the specification (claim C9): depth-first
pre-order concatenation; each node contributes its $scope line, its $var
lines in registration order, its children in creation order, then
exactly one $upscope $end line. -/
def spec_header (d : scope_decl) : List String :=
  ("$scope module " ++ d.name ++ " $end")
    :: d.vars.map (fun v => var_line v.1 v.2.1 v.2.2.1 v.2.2.2)
    ++ (d.children.attach.map (fun c => spec_header c.1)).flatten
    ++ ["$upscope $end"]
decreasing_by
  have h1 := List.sizeOf_lt_of_mem c.2
  cases d
  simp_all
  omega

/-- The number of scope nodes in a declared tree. -/
def node_count (d : scope_decl) : Nat :=
  1 + (d.children.attach.map (fun c => node_count c.1)).sum
decreasing_by
  have h1 := List.sizeOf_lt_of_mem c.2
  cases d
  simp_all
  omega

-- ------------------------------------------------------------------
-- Reference descriptions and well-formedness used to state the merge
-- claims

/-- Strict ordering of (sequence, line) entries by sequence. -/
def key_lt (a b : Nat × String) : Prop := a.1 < b.1

instance : DecidableRel key_lt := fun a b => inferInstanceAs (Decidable (a.1 < b.1))

instance : IsAntisymm (Nat × String) key_lt :=
  ⟨fun a _ h1 h2 => absurd (lt_trans h1 h2) (lt_irrefl a.1)⟩

/-- The pending samples of a buffered signal: slots 0 .. write when
write is not negative. -/
def value.pending (sig : value) : List sample :=
  if sig.write < 0 then [] else sig.samples.take (sig.write.toNat + 1)

/-- The encoded line value::dump writes for one sample of a signal. -/
def value.line_of (sig : value) (smp : sample) : String :=
  value_base.dump sig.kind sig.identifier sig.bit_size smp.state smp.value

/-- The pending (sequence, encoded line) entries of one registered
slot. -/
def pend_of : slot_fn → List (Nat × String)
  | .nop => []
  | .live sig => sig.pending.map (fun smp => (smp.sequence, sig.line_of smp))

/-- All pending (sequence, encoded line) entries of a registry, in
registry order and per-signal buffer order. -/
def pend_entries (slots : List (String × slot_fn)) : List (Nat × String) :=
  slots.flatMap (fun p => pend_of p.2)

/-- Modelled from the claim: the flush lines after the baseline bucket,
each bucket preceded by its #(timestamp + (seq − baseline)) line. -/
def ref_rest (ts q0 : Nat) : List (Nat × String) → List String
  | [] => []
  | (q, l) :: rest => time_line (ts + (q - q0)) :: l :: ref_rest ts q0 rest

/-- Modelled from the claim: the full flush output for an ascending list
of pending (sequence, line) entries: the baseline bucket value at the
current timestamp with no # line before it, then each later bucket
preceded by its synthesized #(timestamp + delta) line. -/
def ref_flush_out (ts : Nat) : List (Nat × String) → List String
  | [] => []
  | (q0, l0) :: rest => l0 :: ref_rest ts q0 rest

/-- The not-yet-consumed pending entries of a buffered signal during a
flush: samples read .. write. -/
def value.rem (sig : value) : List (Nat × String) :=
  if (sig.read : Int) > sig.write then []
  else ((sig.samples.take (sig.write.toNat + 1)).drop sig.read).map
    (fun smp => (smp.sequence, sig.line_of smp))

def slot_fn.rem : slot_fn → List (Nat × String)
  | .nop => []
  | .live sig => sig.rem

def slots_rem (slots : List (String × slot_fn)) : List (Nat × String) :=
  slots.flatMap (fun p => p.2.rem)

/-- Sorted insertion of a (sequence, identifier) pair, used to describe
the evolution of the status map. -/
def insort_pair (e : Nat × String) : List (Nat × String) → List (Nat × String)
  | [] => [e]
  | f :: rest => if e.1 < f.1 then e :: f :: rest else f :: insort_pair e rest

/-- A status map all of whose buckets are singletons (the shape the map
keeps when all pending sequences are globally distinct). -/
def mk_status (l : List (Nat × String)) : List (Nat × List String) :=
  l.map (fun e => (e.1, [e.2]))

/-- Insertion sort of (sequence, line) entries by sequence, used to name
the globally ascending order in which a flush writes the pending
entries. -/
def sort_pairs (l : List (Nat × String)) : List (Nat × String) :=
  l.foldr insort_pair []

/-- The (head remaining sequence, identifier) pair of every registered
slot that still has unconsumed pending entries. -/
def heads_of (slots : List (String × slot_fn)) : List (Nat × String) :=
  slots.filterMap (fun p => match p.2.rem with
    | [] => none
    | e :: _ => some (e.1, p.1))

/-- Mid-flush well-formedness of one buffered signal: capacity at least
2, intact sample array, write index within capacity, remaining
sequences strictly increasing and far below the uint64 wrap. -/
def value.wfr (sig : value) : Prop :=
  2 ≤ sig.depth ∧ sig.samples.length = sig.depth ∧ sig.write < (sig.depth : Int) ∧
  (sig.rem.map Prod.fst).Pairwise (· < ·) ∧ ∀ e ∈ sig.rem, e.1 < 2 ^ 62

def slot_fn.wfr : slot_fn → Prop
  | .nop => True
  | .live sig => sig.wfr

/-- Well-formedness of one registered buffered signal, as produced by
registration and set / set_state calls under a strictly increasing
shared counter without buffer overflow: capacity at least 2, intact
sample array, write index within capacity, pending sequences strictly
increasing and far below the uint64 wrap. -/
def value.wf (sig : value) : Prop :=
  2 ≤ sig.depth ∧ sig.samples.length = sig.depth ∧
  -1 ≤ sig.write ∧ (sig.write : Int) < (sig.depth : Int) ∧
  (sig.pending.map sample.sequence).Pairwise (· < ·) ∧
  ∀ smp ∈ sig.pending, smp.sequence < 2 ^ 62

instance (sig : value) : Decidable sig.wf := by
  unfold value.wf; infer_instance

def slot_fn.wf : slot_fn → Prop
  | .nop => True
  | .live sig => sig.wf

instance : (sl : slot_fn) → Decidable sl.wf
  | .nop => .isTrue trivial
  | .live sig => inferInstanceAs (Decidable sig.wf)

/-- Well-formedness of a quiescent session of buffered signals: clock in
sync (as after every completed time update), identifiers unique, all
pending sequences globally distinct (each recorded under a fresh value
of the strictly increasing shared counter), every live slot a
well-formed buffered signal. -/
def top.sess_wf (s : top) : Prop :=
  s.timestamp = s.tracepoint ∧ s.timestamp < 2 ^ 62 ∧
  (s.dumper_map.map Prod.fst).Nodup ∧
  ((pend_entries s.dumper_map).map Prod.fst).Nodup ∧
  ∀ p ∈ s.dumper_map, slot_fn.wf p.2

instance (s : top) : Decidable s.sess_wf := by
  unfold top.sess_wf; infer_instance

-- ------------------------------------------------------------------
-- Concrete scenario objects used by witnesses, counterexamples and the
-- test-replication checks

/-- Replication of the VcdTopTraceBuf unit test (tests.cpp 464-548):
var_1 = value<int, 9, 10, &seq>, var_2 = value<int, 11, 12, &seq>,
identifiers ! and ", shared counter starting at 42. -/
def tb_var1 : value := value.mk_default .intK 9 "!" 10 42
def tb_var2 : value := value.mk_default .intK 11 "\"" 12 42
def tb_s0 : top :=
  { timestamp := 0
    tracepoint := 0
    dumper_map := [("!", slot_fn.live tb_var1), ("\"", slot_fn.live tb_var2)]
    out := [] }
/-- The test writes 0x11, 0x12 to var_1, 0x21, 0x22 to var_2, 0x13, 0x14
to var_1 and 0x23 to var_2, incrementing the shared counter after each
write, then calls time_update_abs(10ns). -/
def tb_s9 : top :=
  ((((((((tb_s0.finalize_header_body.set_value "!" 42 0x11).set_value "!" 43 0x12).set_value
    "\"" 44 0x21).set_value "\"" 45 0x22).set_value "!" 46 0x13).set_value "!" 47 0x14).set_value
    "\"" 48 0x23).time_update_abs 10)

/-- The C1 claim scenario: two capacity-10 buffered signals, 6
interleaved set calls under shared sequences 42..47. -/
def c1_sig_a : value := value.mk_default .intK 9 "!" 10 42
def c1_sig_b : value := value.mk_default .intK 11 "\"" 10 42
def c1_s0 : top :=
  { timestamp := 0
    tracepoint := 0
    dumper_map := [("!", slot_fn.live c1_sig_a), ("\"", slot_fn.live c1_sig_b)]
    out := [] }
/-- The session after the header flush and the 6 interleaved set calls
(a@42, a@43, b@44, b@45, a@46, a@47), before the time update. -/
def c1_pre : top :=
  (((((c1_s0.finalize_header_body.set_value "!" 42 0x11).set_value "!" 43 0x12).set_value
    "\"" 44 0x21).set_value "\"" 45 0x22).set_value "!" 46 0x13).set_value "!" 47 0x14

/-- A capacity-2 buffered signal after three set calls under the
strictly increasing shared counter values 1, 2, 3: the third call
overflows the buffer (the write index moves to 2 = depth and the sample
is dropped). -/
def c1x_sig : value := (((value.mk_default .intK 2 "!" 2 1).set 1 1).set 2 2).set 3 3
def c1x_top : top :=
  { timestamp := 0
    tracepoint := 0
    dumper_map := [("!", slot_fn.live c1x_sig)]
    out := [] }

/-- A full capacity-2 buffered signal (two pending samples, sequences 1
and 2, values 1 and 2). -/
def c7_full : value := ((value.mk_default .intK 2 "!" 2 1).set 1 1).set 2 2

/-- The C2 scenario: two capacity-2 buffered signals of width 2. -/
def c2_sig_a : value := value.mk_default .intK 2 "!" 2 1
def c2_sig_b : value := value.mk_default .intK 2 "\"" 2 1
def c2_s0 : top :=
  { timestamp := 0
    tracepoint := 0
    dumper_map := [("!", slot_fn.live c2_sig_a), ("\"", slot_fn.live c2_sig_b)]
    out := [] }
/-- Header flush, one set per signal at shared sequences 1 and 6, then
time_update_delta(10): the flush synthesizes #5 and the delta emits #10. -/
def c2_s4 : top :=
  ((c2_s0.finalize_header_body.set_value "!" 1 1).set_value "\"" 6 1).time_update_delta 10
/-- One more set per signal at shared sequences 11 and 16, then the
backwards call time_update_abs(5): the flush synthesizes #15 moving the
tracepoint to 15, and the backwards no-op leaves the timestamp at 10. -/
def c2_s7 : top :=
  (((c2_s4.set_value "!" 11 2).set_value "\"" 16 2).time_update_abs 5)
/-- One more set at shared sequence 17 on the first signal. -/
def c2_s8 : top := c2_s7.set_value "!" 17 3
/-- A further time_update_delta(0): its flush emits #10 after the trace
already contains #15 (emitted time rewinds). -/
def c2_s9 : top := c2_s8.time_update_delta 0

/-- A small quiescent session with no registered signals, used as a
witness input. -/
def c6w_top : top :=
  { timestamp := 5
    tracepoint := 5
    dumper_map := []
    out := [] }

/-- The scope tree of the VcdModule unit test (tests.cpp 314-366):
root with mod1 (submod_a, submod_b) and mod2 (submod_c), with variables
ka, ki, ku, ke, ko at various levels. -/
def c9_tree : scope_decl :=
  { name := "root"
    vars := [("real", 32, "root.ka", "ka")]
    children :=
      [{ name := "mod1"
         vars := [("real", 64, "root.mod1.ki", "ki")]
         children :=
           [{ name := "submod_a"
              vars := [("wire", 32, "root.mod1.submod_a.ke", "ke")]
              children := [] },
            { name := "submod_b", vars := [], children := [] }] },
       { name := "mod2"
         vars := [("wire", 1, "root.mod2.ku", "ku")]
         children :=
           [{ name := "submod_c"
              vars := [("wire", 16, "root.mod2.submod_c.ko", "ko")]
              children := [] }] }] }

-- ==================================================================
-- Theorems
-- ==================================================================

lemma compress_loop_false (p : Bool) (bs : List Bool) :
    compress_loop false p bs = (p :: bs).map bit_char := by
  induction bs generalizing p with
  | nil => rfl
  | cons b bs ih => simp [compress_loop, ih]

lemma compress_loop_true (p : Bool) (bs : List Bool) :
    compress_loop true p bs = (spec_compact (p :: bs)).map bit_char := by
  induction bs generalizing p with
  | nil => rfl
  | cons b bs ih =>
    by_cases hb : b = p
    · subst hb
      simp only [compress_loop, true_and, if_pos rfl]
      rw [ih]
      simp [spec_compact, List.dropWhile]
    · simp only [compress_loop, true_and, if_neg hb]
      rw [compress_loop_false]
      simp [spec_compact, List.dropWhile, hb]

lemma bits_msb_cons (w v : Nat) (h : 1 ≤ w) :
    bits_msb w v =
      v.testBit (w - 1) :: ((List.range (w - 1)).reverse).map (v.testBit ·) := by
  obtain ⟨n, rfl⟩ : ∃ n, w = n + 1 := ⟨w - 1, (Nat.succ_pred_eq_of_pos h).symm⟩
  simp [bits_msb, List.range_succ]

-- ------------------------------------------------------------------
-- Replication of the unit tests of tests.cpp, validating the embedding

/-- The expected trace of the VcdTopTraceBuf unit test (tests.cpp
464-548): the model reproduces the recorded output byte for byte. -/
theorem validation_top_trace_buf :
    tb_s9.out = ["#0", "b010001 !", "#1", "b010010 !", "#2", "b0100001 \"", "#3",
      "b0100010 \"", "#4", "b010011 !", "#5", "b010100 !", "#6", "b0100011 \"", "#10"] := by
  decide

/-- The expected encoder outputs of the VcdValue unit test (tests.cpp
44-246). -/
theorem validation_encoder :
    value_base.dump .intK "vv" 9 .known 0x155 = "b101010101 vv" ∧
    value_base.dump .intK "vv" 9 .known 0x0AA = "b010101010 vv" ∧
    value_base.dump .intK "vv" 9 .undriven_z 0x0AA = "bz vv" ∧
    value_base.dump .intK "vv" 15 .known 0x4242 = "b100001001000010 vv" ∧
    value_base.dump .boolK "vv" 1 .unknown_x 0 = "xvv" ∧
    value_base.dump .boolK "vv" 1 .known 1 = "1vv" ∧
    value_base.dump .boolK "vv" 1 .known 0 = "0vv" ∧
    value_base.dump .boolK "vv" 1 .undriven_z 0 = "zvv" := by
  decide

-- ------------------------------------------------------------------
-- C3: identifier generator

/-- C3 (confirmed): starting from a fresh identifier generator, calls
number 0, 8, 89, 90, 91, 179 and 180 of next() return exactly the
identifiers !, ), z, !!, ! followed by double quote, !z, and double
quote followed by !, respectively: the least-significant symbol is
incremented through the range, wraps to the first symbol and carries
into a new symbol position when exhausted. -/
theorem c3_identifier_generator_calls :
    nth_identifier 0 = "!" ∧ nth_identifier 8 = ")" ∧ nth_identifier 89 = "z" ∧
    nth_identifier 90 = "!!" ∧ nth_identifier 91 = "!\"" ∧
    nth_identifier 179 = "!z" ∧ nth_identifier 180 = "\"!" := by
  decide

-- ------------------------------------------------------------------
-- C4: vector encoding with bit-run compaction

/-- C4 counterexample: the claim quantifies over every signal of
bit_width > 1, but value_base::dump selects the scalar branch by
element type, not by bit width: a value<bool, 5> signal has declared
bit width 5 and an Unknown sample encodes as x plus the identifier, not
as the claimed b + x + space + identifier. -/
theorem c4_counterexample :
    value_base.dump .boolK "!" 5 .unknown_x 0 = "x!" ∧
    value_base.dump .boolK "!" 5 .unknown_x 0 ≠ "bx !" := by
  decide

/-- C4 (amended to signals of non-boolean integral element kind, the
kinds the b-encoding branch of value_base::dump handles): for every
bit width above 1, Unknown encodes as b + x + space + identifier,
Undriven as b + z + space + identifier with no per-bit expansion, and a
Known value as b followed by the MSB-first bit string with the run of
leading bits equal to the most significant bit collapsed to exactly one
copy (spec_compact), a space and the identifier. -/
theorem c4_vector_encoding (id : String) (w v : Nat) (h : 2 ≤ w) :
    value_base.dump .intK id w .unknown_x v = "bx " ++ id ∧
    value_base.dump .intK id w .undriven_z v = "bz " ++ id ∧
    value_base.dump .intK id w .known v =
      "b" ++ String.mk ((spec_compact (bits_msb w v)).map bit_char) ++ " " ++ id := by
  refine ⟨rfl, rfl, ?_⟩
  have h1 : (1 : Nat) ≤ w := le_trans (by norm_num) h
  rw [value_base.dump, bits_msb_cons w v h1, ← compress_loop_true]

/-- Witness for c4_vector_encoding: the 17-bit Known value 0x1DEAD
encodes as b101111010101101 followed by a space and the identifier. -/
theorem c4_vector_encoding_witness :
    (2 ≤ 17 ∧
      value_base.dump .intK "!" 17 .known 0x1DEAD = "b101111010101101 !") :=
  ⟨by norm_num,
   ((c4_vector_encoding "!" 17 0x1DEAD (by norm_num)).2.2).trans (by decide)⟩

-- ------------------------------------------------------------------
-- C5: scalar encoding

/-- C5 counterexample: the claim quantifies over every signal of
bit_width 1 whatever its element type, but value_base::dump selects the
scalar branch by element type: a value<unsigned, 1> signal has bit
width 1 and a Known(1) sample encodes as b1 space identifier, not as
the claimed single character followed by the identifier. -/
theorem c5_counterexample :
    value_base.dump .intK "!" 1 .known 1 = "b1 !" ∧
    value_base.dump .intK "!" 1 .known 1 ≠ "1!" := by
  decide

/-- C5 (amended to signals of boolean element type, which are the
signals the scalar branch of value_base::dump handles and which declare
bit width 1): encoding a sample emits exactly one character, 1 for a
Known non-zero value, 0 for Known zero, x for Unknown, z for Undriven,
immediately followed by the identifier with no separator. -/
theorem c5_scalar_encoding (id : String) (v : Nat) :
    value_base.dump .boolK id 1 .unknown_x v = "x" ++ id ∧
    value_base.dump .boolK id 1 .undriven_z v = "z" ++ id ∧
    (v ≠ 0 → value_base.dump .boolK id 1 .known v = "1" ++ id) ∧
    (v = 0 → value_base.dump .boolK id 1 .known v = "0" ++ id) := by
  refine ⟨rfl, rfl, fun hv => ?_, fun hv => ?_⟩
  · simp [value_base.dump, hv]
  · simp [value_base.dump, hv]

/-- Witness for c5_scalar_encoding at the concrete inputs of the
specification (bit_width 1, Unknown and Known(true)). -/
theorem c5_scalar_encoding_witness :
    value_base.dump .boolK "vv" 1 .unknown_x 0 = "x" ++ "vv" ∧
    value_base.dump .boolK "vv" 1 .known 1 = "1" ++ "vv" :=
  ⟨(c5_scalar_encoding "vv" 0).1, (c5_scalar_encoding "vv" 1).2.2.1 (by norm_num)⟩

-- ------------------------------------------------------------------
-- C7: buffer-capacity overflow

lemma value.dump_samples_eq (sig : value) (start : Bool) :
    (sig.dump start).1.samples = sig.samples := by
  unfold value.dump
  repeat' split
  all_goals simp
  all_goals repeat' split
  all_goals simp

lemma value.dump_fields_eq (sig : value) (start : Bool) :
    (sig.dump start).1.kind = sig.kind ∧
      (sig.dump start).1.identifier = sig.identifier ∧
      (sig.dump start).1.bit_size = sig.bit_size ∧
      (sig.dump start).1.depth = sig.depth := by
  unfold value.dump
  repeat' split
  all_goals simp
  all_goals repeat' split
  all_goals simp

lemma value.dump_lines_mem (sig : value) (start : Bool)
    (hlen : sig.samples.length = sig.depth) (hd : 0 < sig.depth) :
    ∀ line ∈ (sig.dump start).2.1, ∃ smp ∈ sig.samples, line = sig.line_of smp := by
  have key : ∀ idx : Nat, idx < sig.samples.length →
      ∃ smp ∈ sig.samples,
        value_base.dump sig.kind sig.identifier sig.bit_size
          (sig.samples.getD idx default).state (sig.samples.getD idx default).value
          = sig.line_of smp := fun idx hidx =>
    ⟨sig.samples.getD idx default,
      by rw [List.getD_eq_getElem _ _ hidx]; exact List.getElem_mem hidx, rfl⟩
  intro line hline
  unfold value.dump at hline
  repeat' split at hline
  all_goals try simp only [List.mem_singleton, List.not_mem_nil] at hline
  all_goals try repeat' split at hline
  all_goals try simp only [List.mem_singleton, List.not_mem_nil] at hline
  all_goals subst hline
  all_goals first
    | exact key _ (by rw [hlen]; exact Nat.mod_lt _ hd)
    | exact key 0 (by omega)

/-- C7 counterexample: a capacity-2 buffered signal with both slots
pending (sequences 1 and 2, values 1 and 2).  A further set call in the
same flush window under the same counter value 2 as the newest pending
sample is NOT dropped: it overwrites that pending sample in place
(slot model of the specification, section 3), so the pending samples
are not preserved unchanged as the claim states. -/
theorem c7_counterexample :
    c7_full.depth = 2 ∧ c7_full.write = 1 ∧
    c7_full.samples =
      [{ sequence := 1, state := .known, value := 1 },
       { sequence := 2, state := .known, value := 2 }] ∧
    (c7_full.set 2 3).samples =
      [{ sequence := 1, state := .known, value := 1 },
       { sequence := 2, state := .known, value := 3 }] := by
  decide

/-- C7 (amended: a further call whose shared counter value differs from
the newest pending sample, i.e. recorded strictly later than that
sample, is silently dropped; a call under the same counter value
overwrites the newest pending sample in place).  For a buffered signal
with its D slots already pending, such a set / unknown / undriven call
leaves the D pending samples unchanged, no error is raised (the
operations are total), and every line any subsequent dump writes
encodes one of the stored samples, so the dropped sample never appears
in the output of any subsequent flush. -/
theorem c7_overflow_silent_drop (sig : value) (g v : Nat) (S : value_state)
    (hd : 2 ≤ sig.depth) (hlen : sig.samples.length = sig.depth)
    (hfull : (sig.depth : Int) - 1 ≤ sig.write)
    (hseq : sig.write = (sig.depth : Int) - 1 →
      (sig.samples.getD (sig.depth - 1) default).sequence ≠ g) :
    (sig.set g v).samples = sig.samples ∧
    (sig.set_state g S).samples = sig.samples ∧
    (∀ start, ((sig.set g v).dump start).1.samples = sig.samples) ∧
    (∀ start, ∀ line ∈ ((sig.set g v).dump start).2.1,
      ∃ smp ∈ sig.samples, line = sig.line_of smp) := by
  have hd1 : ¬ sig.depth = 1 := by omega
  have hw1 : ¬ sig.write = -1 := by omega
  have htn : sig.write.toNat % sig.depth = sig.depth - 1 ∨ ¬ sig.write < (sig.depth : Int) := by
    by_cases hlt : sig.write < (sig.depth : Int)
    · left
      have : sig.write = (sig.depth : Int) - 1 := by omega
      rw [this]
      have h2 : ((sig.depth : Int) - 1).toNat = sig.depth - 1 := by omega
      rw [h2, Nat.mod_eq_of_lt (by omega)]
    · right; exact hlt
  have hset : (sig.set g v).samples = sig.samples := by
    unfold value.set
    rw [if_neg hd1, if_neg hw1]
    dsimp only
    split
    · rename_i hcond
      obtain ⟨hlt, _⟩ := hcond
      obtain htn | htn := htn
      · have hseq2 := hseq (by omega)
        rw [htn] at *
        rw [if_pos hseq2]
        have : ¬ (sig.write + 1 < (sig.depth : Int)) := by omega
        rw [if_neg this]
      · exact absurd hlt htn
    · rfl
  have hsets : (sig.set_state g S).samples = sig.samples := by
    unfold value.set_state
    rw [if_neg hd1, if_neg hw1]
    dsimp only
    split
    · rename_i hcond
      obtain ⟨hlt, _⟩ := hcond
      obtain htn | htn := htn
      · have hseq2 := hseq (by omega)
        rw [htn] at *
        rw [if_pos hseq2]
        have : ¬ (sig.write + 1 < (sig.depth : Int)) := by omega
        rw [if_neg this]
      · exact absurd hlt htn
    · rfl
  have hfields : (sig.set g v).kind = sig.kind ∧ (sig.set g v).identifier = sig.identifier ∧
      (sig.set g v).bit_size = sig.bit_size ∧ (sig.set g v).depth = sig.depth := by
    unfold value.set
    repeat' split
    all_goals dsimp only
    all_goals try repeat' split
    all_goals simp
  refine ⟨hset, hsets, fun start => ?_, fun start line hline => ?_⟩
  · rw [value.dump_samples_eq, hset]
  · have hmem := value.dump_lines_mem (sig.set g v) start
      (by rw [hset, hfields.2.2.2]; exact hlen) (by omega) line hline
    obtain ⟨smp, hsmp, hl⟩ := hmem
    rw [hset] at hsmp
    refine ⟨smp, hsmp, ?_⟩
    rw [hl]
    unfold value.line_of
    rw [hfields.1, hfields.2.1, hfields.2.2.1]

/-- Witness for c7_overflow_silent_drop: the full capacity-2 signal
c7_full, a set call at the advanced counter value 3. -/
theorem c7_overflow_silent_drop_witness :
    (2 ≤ c7_full.depth ∧ c7_full.samples.length = c7_full.depth ∧
      (c7_full.depth : Int) - 1 ≤ c7_full.write) ∧
    (c7_full.set 3 9).samples = c7_full.samples :=
  ⟨⟨by decide, by decide, by decide⟩,
   (c7_overflow_silent_drop c7_full 3 9 .undriven_z (by decide) (by decide)
     (by decide) (by decide)).1⟩

-- ------------------------------------------------------------------
-- C8: destruction safety

lemma invoke_replace_slot_nop (slots : List (String × slot_fn)) (id : String) (start : Bool) :
    (invoke_dumper (replace_slot slots id) id start).2.1 = [] ∧
    (invoke_dumper (replace_slot slots id) id start).2.2 = end_sequence := by
  induction slots with
  | nil => exact ⟨rfl, rfl⟩
  | cons p rest ih =>
    obtain ⟨k, sl⟩ := p
    by_cases hk : k = id
    · simp [replace_slot, invoke_dumper, hk, slot_fn.dump]
    · simp [replace_slot, invoke_dumper, hk, ih]

/-- C8 (confirmed): the value_base destructor replaces the signal's
callback slot in the session registry (dumper_map) with
scope_fn::nop_dump; invoking the slot of a destroyed identifier writes
no output and reports neither a dumped nor a pending sequence, and the
installed nop callback itself writes nothing and returns end_sequence
whatever its arguments, so no reference held through the registry can
write stale data. -/
theorem c8_destroy_invalidates (s : top) (id : String) (start : Bool) :
    (invoke_dumper (s.destroy_value id).dumper_map id start).2.1 = [] ∧
    (invoke_dumper (s.destroy_value id).dumper_map id start).2.2 = end_sequence ∧
    slot_fn.nop.dump start = (slot_fn.nop, [], end_sequence) := by
  have h := invoke_replace_slot_nop s.dumper_map id start
  exact ⟨h.1, h.2, rfl⟩

-- ------------------------------------------------------------------
-- C9: scope tree header

lemma finalize_header_def (m : module_instance) :
    m.finalize_header =
      m.vcd_scope ++ (m.children.map (fun c => c.finalize_header)).flatten
        ++ ["$upscope $end"] := by
  rw [module_instance.finalize_header]
  rw [List.attach_map_val m.children (fun c => c.finalize_header)]

lemma spec_header_def (d : scope_decl) :
    spec_header d =
      ("$scope module " ++ d.name ++ " $end")
        :: d.vars.map (fun v => var_line v.1 v.2.1 v.2.2.1 v.2.2.2)
        ++ (d.children.map (fun c => spec_header c)).flatten
        ++ ["$upscope $end"] := by
  rw [spec_header]
  rw [List.attach_map_val d.children (fun c => spec_header c)]

lemma node_count_def (d : scope_decl) :
    node_count d = 1 + (d.children.map (fun c => node_count c)).sum := by
  rw [node_count]
  rw [List.attach_map_val d.children (fun c => node_count c)]

lemma foldl_add_var_eq (m : module_instance) (vs : List (String × Nat × String × String)) :
    vs.foldl (fun m v => module_add_var m v.1 v.2.1 v.2.2.1 v.2.2.2) m =
      { m with vcd_scope :=
          m.vcd_scope ++ vs.map (fun v => var_line v.1 v.2.1 v.2.2.1 v.2.2.2) } := by
  induction vs generalizing m with
  | nil =>
    simp only [List.foldl_nil, List.map_nil, List.append_nil]
    cases m
    rfl
  | cons v vs ih =>
    rw [List.foldl_cons, ih]
    simp [module_add_var]

lemma foldl_add_child_eq (m : module_instance) (g : scope_decl → module_instance)
    (cs : List scope_decl) :
    cs.foldl (fun acc c => module_add_child acc (g c)) m =
      { m with children := m.children ++ cs.map g } := by
  induction cs generalizing m with
  | nil =>
    simp only [List.foldl_nil, List.map_nil, List.append_nil]
    cases m
    rfl
  | cons c cs ih =>
    rw [List.foldl_cons, ih]
    simp [module_add_child]

lemma build_module_eq (d : scope_decl) :
    build_module d =
      { instance_name := d.name,
        vcd_scope := ("$scope module " ++ d.name ++ " $end")
          :: d.vars.map (fun v => var_line v.1 v.2.1 v.2.2.1 v.2.2.2),
        children := d.children.map (fun c => build_module c) } := by
  rw [build_module]
  rw [List.foldl_attach d.children (fun acc c => module_add_child acc (build_module c))]
  rw [foldl_add_child_eq, foldl_add_var_eq]
  simp [module_mk]

lemma sizeOf_child_lt (d : scope_decl) (c : scope_decl) (hc : c ∈ d.children) :
    sizeOf c < sizeOf d := by
  cases d
  have := List.sizeOf_lt_of_mem hc
  simp_all
  omega

lemma build_finalize_aux :
    ∀ n, ∀ d : scope_decl, sizeOf d < n →
      (build_module d).finalize_header = spec_header d := by
  intro n
  induction n with
  | zero => intro d h; omega
  | succ n ih =>
    intro d hd
    rw [build_module_eq, finalize_header_def, spec_header_def]
    simp only [List.map_map, List.cons_append]
    have hmap : (List.map ((fun c => c.finalize_header) ∘ fun c => build_module c) d.children)
        = List.map (fun c => spec_header c) d.children := by
      apply List.map_congr_left
      intro c hc
      have := sizeOf_child_lt d c hc
      exact ih c (by omega)
    rw [hmap]

lemma is_upscope_line_scope (n : String) :
    ¬ is_upscope_line ("$scope module " ++ n ++ " $end") = true := by
  simp only [is_upscope_line, beq_iff_eq]
  intro h
  have h2 := congrArg String.data h
  simp [String.data_append] at h2

lemma is_upscope_line_var (ty : String) (bits : Nat) (id name : String) :
    ¬ is_upscope_line (var_line ty bits id name) = true := by
  simp only [is_upscope_line, var_line, beq_iff_eq]
  intro h
  have h2 := congrArg String.data h
  simp [String.data_append] at h2

lemma is_upscope_line_upscope : is_upscope_line "$upscope $end" = true := by decide

lemma is_scope_line_scope (n : String) :
    is_scope_line ("$scope module " ++ n ++ " $end") = true := by
  simp [is_scope_line, String.data_append, List.isPrefixOf]

lemma is_scope_line_var (ty : String) (bits : Nat) (id name : String) :
    ¬ is_scope_line (var_line ty bits id name) = true := by
  simp [is_scope_line, var_line, String.data_append, List.isPrefixOf]

lemma is_scope_line_upscope : ¬ is_scope_line "$upscope $end" = true := by decide

lemma spec_header_count_upscope :
    ∀ n, ∀ d : scope_decl, sizeOf d < n →
      (spec_header d).countP is_upscope_line = node_count d := by
  intro n
  induction n with
  | zero => intro d h; omega
  | succ n ih =>
    intro d hd
    rw [spec_header_def, node_count_def]
    simp only [List.cons_append, List.append_assoc]
    rw [List.countP_cons_of_neg is_upscope_line _ (is_upscope_line_scope d.name)]
    rw [List.countP_append, List.countP_append]
    rw [List.countP_eq_zero.mpr (by
      intro l hl
      obtain ⟨v, _, rfl⟩ := List.mem_map.mp hl
      exact is_upscope_line_var _ _ _ _)]
    rw [List.countP_flatten, List.map_map]
    have hc : (d.children.map
        ((fun l : List String => l.countP is_upscope_line) ∘ (fun c => spec_header c))) =
        d.children.map (fun c => node_count c) := by
      apply List.map_congr_left
      intro c hc
      have := sizeOf_child_lt d c hc
      exact ih c (by omega)
    rw [hc]
    rw [show List.countP is_upscope_line ["$upscope $end"] = 1 by
      rw [List.countP_cons_of_pos is_upscope_line _ is_upscope_line_upscope]; rfl]
    omega

lemma spec_header_count_scope :
    ∀ n, ∀ d : scope_decl, sizeOf d < n →
      (spec_header d).countP is_scope_line = node_count d := by
  intro n
  induction n with
  | zero => intro d h; omega
  | succ n ih =>
    intro d hd
    rw [spec_header_def, node_count_def]
    simp only [List.cons_append, List.append_assoc]
    rw [List.countP_cons_of_pos is_scope_line _ (is_scope_line_scope d.name)]
    rw [List.countP_append, List.countP_append]
    rw [List.countP_eq_zero.mpr (by
      intro l hl
      obtain ⟨v, _, rfl⟩ := List.mem_map.mp hl
      exact is_scope_line_var _ _ _ _)]
    rw [List.countP_flatten, List.map_map]
    have hc : (d.children.map
        ((fun l : List String => l.countP is_scope_line) ∘ (fun c => spec_header c))) =
        d.children.map (fun c => node_count c) := by
      apply List.map_congr_left
      intro c hc
      have := sizeOf_child_lt d c hc
      exact ih c (by omega)
    rw [hc]
    rw [show List.countP is_scope_line ["$upscope $end"] = 0 by
      rw [List.countP_cons_of_neg is_scope_line _ is_scope_line_upscope]; rfl]
    omega

/-- C9 (confirmed): for every scope tree, the finalized header text is
the depth-first pre-order concatenation (children in creation order) in
which every node contributes its $scope module line, one $var line per
directly owned variable in registration order, its children text
recursively, and exactly one $upscope $end line, so the number of
$upscope $end lines equals the number of $scope module lines (one per
node, every scope opened is closed by exactly one upscope). -/
theorem c9_scope_tree_header (d : scope_decl) :
    (build_module d).finalize_header = spec_header d ∧
    (build_module d).finalize_header.countP is_upscope_line = node_count d ∧
    (build_module d).finalize_header.countP is_scope_line = node_count d := by
  have h1 := build_finalize_aux (sizeOf d + 1) d (by omega)
  refine ⟨h1, ?_, ?_⟩
  · rw [h1]; exact spec_header_count_upscope (sizeOf d + 1) d (by omega)
  · rw [h1]; exact spec_header_count_scope (sizeOf d + 1) d (by omega)

-- ------------------------------------------------------------------
-- Clock-preservation lemmas for time_update_core

lemma top.log_time_timestamp (s : top) (n : Nat) (f : Bool) :
    (s.log_time n f).timestamp = s.timestamp := by
  unfold top.log_time
  split <;> rfl

lemma drain_consume_timestamp (acc : top × List (Nat × List String)) (id : String) :
    (drain_consume acc id).1.timestamp = acc.1.timestamp := rfl

lemma foldl_drain_consume_timestamp (ids : List String)
    (acc : top × List (Nat × List String)) :
    (ids.foldl drain_consume acc).1.timestamp = acc.1.timestamp := by
  induction ids generalizing acc with
  | nil => rfl
  | cons id ids ih => rw [List.foldl_cons, ih, drain_consume_timestamp]

lemma drain_timestamp (fuel : Nat) (s : top) (σ : List (Nat × List String))
    (first? : Option Nat) : (drain fuel s σ first?).timestamp = s.timestamp := by
  induction fuel generalizing s σ first? with
  | zero => rfl
  | succ fuel ih =>
    match σ with
    | [] => rfl
    | (seq, ids) :: rest =>
      rw [drain, ih, foldl_drain_consume_timestamp, top.log_time_timestamp]

lemma top.core_timestamp (s : top) : s.time_update_core.timestamp = s.timestamp := by
  unfold top.time_update_core
  rw [drain_timestamp]

-- ------------------------------------------------------------------
-- C2: monotonicity of emitted time

/-- C2 (code bug): the claimed invariants fail on the code.  In the
concrete run c2_s0 .. c2_s9 (two capacity-2 buffered signals), the
backwards call time_update_abs(5) in c2_s7 first flushes pending
buffered data, emitting the synthesized line #15 and moving the
tracepoint to 15, and then takes the backwards no-op branch without
re-synchronising, leaving tracepoint 15 above timestamp 10; the next
flush then emits #10 after #15, so the emitted # timestamps are not
monotonically non-decreasing. -/
theorem c2_time_rewind_bug :
    c2_s7.timestamp = 10 ∧ c2_s7.tracepoint = 15 ∧
    c2_s9.out = ["#0", "b01 !", "#5", "b01 \"", "#10", "b10 !", "#15", "b10 \"",
      "#10", "b1 !"] := by
  decide

-- ------------------------------------------------------------------
-- C6: absolute time updates

/-- C6 counterexample: for the negative time t = -1 (strictly less than
the logical timestamp 10 of session c2_s7), time_update_abs(-1) is not
a no-op on the clock: the int64 tick count converts to a huge uint64 in
the comparison against _timestamp, the backwards branch is not taken,
and the timestamp is clamped up to the tracepoint 15. -/
theorem c6_counterexample :
    (-1 : Int) < (c2_s7.timestamp : Int) ∧ c2_s7.timestamp = 10 ∧
    (c2_s7.time_update_abs (-1)).timestamp = 15 := by
  decide

/-- C6 (amended to non-negative times t, the counterexample above being
a negative time defeating the signed-to-unsigned comparison): after the
flush that every call runs first, if t is strictly below the logical
timestamp the call is a no-op on the clock (the state is exactly the
flushed state: timestamp unchanged, t neither adopted nor emitted); if
timestamp ≤ t ≤ tracepoint the adopted time is clamped to the
tracepoint (and nothing is emitted); otherwise t is adopted and #t is
emitted.  The logical timestamp is untouched by the flush
(top.core_timestamp), so the branches may be read against the
call-time timestamp. -/
lemma time_update_abs_eq (s : top) (t : Int) :
    s.time_update_abs t =
      (if (t.emod (2 ^ 64)).toNat ≥ s.time_update_core.timestamp then
         top.log_time
           { s.time_update_core with timestamp :=
               ((if t ≤ to_int64 s.time_update_core.tracepoint
                  then to_int64 s.time_update_core.tracepoint else t).emod (2 ^ 64)).toNat }
           ((if t ≤ to_int64 s.time_update_core.tracepoint
              then to_int64 s.time_update_core.tracepoint else t).emod (2 ^ 64)).toNat false
       else s.time_update_core) := rfl

theorem c6_abs_backwards_noop (s : top) (t : Int) (ht0 : 0 ≤ t) (ht1 : t < 2 ^ 63)
    (htp : s.time_update_core.tracepoint < 2 ^ 63) :
    (t.toNat < s.timestamp → s.time_update_abs t = s.time_update_core) ∧
    (s.timestamp ≤ t.toNat → t.toNat ≤ s.time_update_core.tracepoint →
      (s.time_update_abs t).timestamp = s.time_update_core.tracepoint ∧
      (s.time_update_abs t).out = s.time_update_core.out) ∧
    (s.timestamp ≤ t.toNat → s.time_update_core.tracepoint < t.toNat →
      (s.time_update_abs t).timestamp = t.toNat ∧
      (s.time_update_abs t).out = s.time_update_core.out ++ [time_line t.toNat]) := by
  have hts : s.time_update_core.timestamp = s.timestamp := s.core_timestamp
  have h64 : (2 : Int) ^ 64 = 18446744073709551616 := by norm_num
  have hmod : (t.emod (2 ^ 64)).toNat = t.toNat := by
    have hx : t.emod (2 ^ 64) = t % 18446744073709551616 := by rw [h64]; rfl
    rw [hx]
    omega
  have he : ((s.time_update_core.tracepoint : Int).emod (2 ^ 64)).toNat
      = s.time_update_core.tracepoint := by
    have hx : (s.time_update_core.tracepoint : Int).emod (2 ^ 64)
        = (s.time_update_core.tracepoint : Int) % 18446744073709551616 := by rw [h64]; rfl
    rw [hx]
    omega
  have he2 : to_int64 s.time_update_core.tracepoint
      = (s.time_update_core.tracepoint : Int) := by
    unfold to_int64
    rw [if_pos htp]
  refine ⟨fun hlt => ?_, fun hge hle => ?_, fun hge hgt => ?_⟩
  · rw [time_update_abs_eq]
    rw [if_neg (by rw [hmod, hts]; omega)]
  · rw [time_update_abs_eq]
    rw [if_pos (by rw [hmod, hts]; omega)]
    rw [he2]
    rw [if_pos (show t ≤ (s.time_update_core.tracepoint : Int) by omega)]
    rw [he]
    unfold top.log_time
    rw [if_neg (by simp)]
    exact ⟨rfl, rfl⟩
  · rw [time_update_abs_eq]
    rw [if_pos (by rw [hmod, hts]; omega)]
    rw [he2]
    rw [if_neg (show ¬ t ≤ (s.time_update_core.tracepoint : Int) by omega)]
    rw [hmod]
    unfold top.log_time
    rw [if_pos (by simp; omega)]
    exact ⟨rfl, rfl⟩

/-- Witness for c6_abs_backwards_noop: the empty quiescent session
c6w_top with timestamp 5 and the backwards time 3. -/
theorem c6_abs_backwards_noop_witness :
    (0 : Int) ≤ 3 ∧ (3 : Int) < 2 ^ 63 ∧ c6w_top.time_update_core.tracepoint < 2 ^ 63 ∧
    ((3 : Int).toNat < c6w_top.timestamp ∧
      c6w_top.time_update_abs 3 = c6w_top.time_update_core) :=
  ⟨by norm_num, by norm_num, by decide,
   by decide,
   (c6_abs_backwards_noop c6w_top 3 (by norm_num) (by norm_num) (by decide)).1 (by decide)⟩

-- ------------------------------------------------------------------
-- C10 counterexample

/-- C10 counterexample: in the session c2_s8 (reachable by the concrete
run of c2_time_rewind_bug, with tracepoint 15 above timestamp 10 and
one pending sample at sequence 17), the drain pass adopts the only
bucket as baseline with delta 0 but its log_time call at the current
timestamp 10 differs from the tracepoint 15 and therefore emits the
line #10 before the first bucket value, contradicting the claim that
the first bucket is always written without emitting a # line. -/
theorem c10_counterexample :
    c2_s8.timestamp = 10 ∧ c2_s8.tracepoint = 15 ∧
    c2_s8.time_update_core.out = c2_s8.out ++ [time_line 10, "b1 !"] := by
  decide

-- ------------------------------------------------------------------
-- Sorted status-map lemmas

lemma insort_pair_perm (e : Nat × String) (l : List (Nat × String)) :
    List.Perm (insort_pair e l) (e :: l) := by
  induction l with
  | nil => rfl
  | cons f rest ih =>
    unfold insort_pair
    split
    · rfl
    · exact (List.Perm.cons f ih).trans (List.Perm.swap e f rest)

lemma insort_pair_pairwise (e : Nat × String) (l : List (Nat × String))
    (hl : l.Pairwise key_lt) (he : e.1 ∉ l.map Prod.fst) :
    (insort_pair e l).Pairwise key_lt := by
  induction l with
  | nil => exact List.pairwise_singleton _ _
  | cons f rest ih =>
    obtain ⟨hf, hrest⟩ := List.pairwise_cons.mp hl
    unfold insort_pair
    split
    · rename_i hlt
      refine List.pairwise_cons.mpr ⟨?_, hl⟩
      intro b hb
      rcases List.mem_cons.mp hb with hb | hb
      · subst hb; exact hlt
      · exact lt_trans hlt (hf b hb)
    · rename_i hnlt
      have hne : e.1 ≠ f.1 := fun h => he (by simp [h])
      have hfe : key_lt f e := by unfold key_lt at *; omega
      refine List.pairwise_cons.mpr ⟨?_, ih hrest (fun h => he (by simp [h]))⟩
      intro b hb
      have hb2 := (insort_pair_perm e rest).mem_iff.mp hb
      rcases List.mem_cons.mp hb2 with hb2 | hb2
      · subst hb2; exact hfe
      · exact hf b hb2

lemma status_insert_mk (H : List (Nat × String)) (q : Nat) (id : String)
    (hq : q ∉ H.map Prod.fst) :
    status_insert (mk_status H) q id = mk_status (insort_pair (q, id) H) := by
  induction H with
  | nil => rfl
  | cons f rest ih =>
    have hne : q ≠ f.1 := fun h => hq (by simp [h])
    unfold mk_status at *
    rw [List.map_cons]
    unfold status_insert insort_pair
    by_cases hlt : q < f.1
    · rw [if_pos hlt, if_pos hlt]
      rfl
    · rw [if_neg hlt, if_neg hne, if_neg hlt, List.map_cons]
      rw [ih (fun h => hq (by simp [h]))]

-- ------------------------------------------------------------------
-- uint64 arithmetic at small values

lemma submod64_eq (a b : Nat) (hba : b ≤ a) (ha : a < 2 ^ 64) :
    submod64 a b = a - b := by
  unfold submod64
  have hx : ((a : Int) - b).emod (2 ^ 64) = ((a : Int) - b) % 18446744073709551616 := by
    rw [show ((2 : Int) ^ 64) = 18446744073709551616 from by norm_num]
    rfl
  rw [hx]
  omega

lemma addmod64_eq (a b : Nat) (h : a + b < 2 ^ 64) : addmod64 a b = a + b :=
  Nat.mod_eq_of_lt h

-- ------------------------------------------------------------------
-- Characterisation of value::dump during a flush

lemma value.rem_read_zero (sig : value) :
    ({ sig with read := 0 } : value).rem =
      sig.pending.map (fun smp => (smp.sequence, sig.line_of smp)) := by
  unfold value.rem value.pending
  by_cases hw : sig.write < 0
  · rw [if_pos (by simpa using hw), if_pos hw]
    rfl
  · rw [if_neg (by simpa using hw), if_neg hw]
    simp [value.line_of]

lemma value.dump_peek (sig : value) (hd : ¬ sig.depth = 1) :
    sig.dump true =
      (if sig.write < 0 then
        ({ sig with read := 0, write := -1 }, [], end_sequence)
      else
        ({ sig with read := 0 }, [],
          ⟨none, some (sig.samples.getD (0 % sig.depth) default).sequence⟩)) := by
  unfold value.dump
  rw [if_neg hd]
  by_cases hw : sig.write < 0
  · rw [if_pos hw]
    simp only [if_true]
    rw [if_pos (by simpa using hw)]
  · rw [if_neg hw]
    simp only [if_true]
    rw [if_neg (by simpa using hw)]

lemma value.dump_consume (sig : value) (hwf : sig.wfr) (hne : sig.rem ≠ []) :
    ∃ e rest, sig.rem = e :: rest ∧
      sig.dump false =
        ({ sig with read := sig.read + 1,
                    write := if rest.isEmpty then -1 else sig.write },
         [e.2], ⟨some e.1, rest.head?.map Prod.fst⟩) ∧
      ({ sig with read := sig.read + 1,
                  write := if rest.isEmpty then -1 else sig.write } : value).rem = rest := by
  obtain ⟨hd2, hlen, hwd, hpw, hbound⟩ := hwf
  have hd1 : ¬ sig.depth = 1 := by omega
  have hle : ¬ ((sig.read : Int) > sig.write) := by
    intro h
    exact hne (by unfold value.rem; rw [if_pos h])
  have hw0 : (0 : Int) ≤ sig.write := by omega
  have hwlt : sig.write.toNat < sig.depth := by omega
  have hrw : sig.read ≤ sig.write.toNat := by omega
  have hrd : sig.read < sig.depth := by omega
  have hmod : sig.read % sig.depth = sig.read := Nat.mod_eq_of_lt hrd
  have hLlen : (sig.samples.take (sig.write.toNat + 1)).length = sig.write.toNat + 1 := by
    rw [List.length_take]
    omega
  have hrL : sig.read < (sig.samples.take (sig.write.toNat + 1)).length := by omega
  have hbr : sig.read < sig.samples.length := by omega
  have hbr1 : sig.read + 1 ≤ sig.samples.length := by omega
  have hdropL := List.drop_eq_getElem_cons hrL
  have hgetL : (sig.samples.take (sig.write.toNat + 1))[sig.read] =
      sig.samples[sig.read] := List.getElem_take _
  have hremeq : sig.rem =
      ((sig.samples.take (sig.write.toNat + 1)).drop sig.read).map
        (fun smp => (smp.sequence, sig.line_of smp)) := by
    unfold value.rem
    rw [if_neg hle]
  refine ⟨((sig.samples[sig.read]).sequence,
    sig.line_of (sig.samples[sig.read])),
    ((sig.samples.take (sig.write.toNat + 1)).drop (sig.read + 1)).map
      (fun smp => (smp.sequence, sig.line_of smp)), ?_, ?_, ?_⟩
  · rw [hremeq, hdropL, List.map_cons, hgetL]
  · unfold value.dump
    rw [if_neg hd1]
    simp only [Bool.false_eq_true, if_false]
    rw [if_neg hle]
    by_cases hlast : sig.read = sig.write.toNat
    · have hrest : ((sig.samples.take (sig.write.toNat + 1)).drop (sig.read + 1)).map
          (fun smp => (smp.sequence, sig.line_of smp)) = [] := by
        rw [List.drop_eq_nil_of_le (by omega)]
        rfl
      rw [hrest]
      rw [if_pos (by push_cast; omega)]
      have hsome : sig.samples[sig.read]? =
          some (sig.samples[sig.read]) := List.getElem?_eq_getElem (by omega)
      simp [hmod, value.line_of, hsome]
    · have hlt2 : sig.read + 1 ≤ sig.write.toNat := by omega
      have hrL2 : sig.read + 1 < (sig.samples.take (sig.write.toNat + 1)).length := by omega
      have hdrop2 := List.drop_eq_getElem_cons hrL2
      rw [hdrop2]
      rw [if_neg (by push_cast; omega)]
      have hbr2 : sig.read + 1 < sig.samples.length := by omega
      have hsome : sig.samples[sig.read]? =
          some (sig.samples[sig.read]) := List.getElem?_eq_getElem (by omega)
      have hsome2 : sig.samples[sig.read + 1]? =
          some (sig.samples[sig.read + 1]) := List.getElem?_eq_getElem (by omega)
      simp [hmod, value.line_of, Nat.mod_eq_of_lt (show sig.read + 1 < sig.depth by omega),
        hsome, hsome2, List.getElem_take]
  · by_cases hlast : sig.read = sig.write.toNat
    · have hrest : ((sig.samples.take (sig.write.toNat + 1)).drop (sig.read + 1)).map
          (fun smp => (smp.sequence, sig.line_of smp)) = [] := by
        rw [List.drop_eq_nil_of_le (by omega)]
        rfl
      rw [hrest]
      unfold value.rem
      rw [if_pos (by simp only [List.isEmpty_nil, if_true]; omega)]
    · have hlt2 : sig.read + 1 ≤ sig.write.toNat := by omega
      have hrL2 : sig.read + 1 < (sig.samples.take (sig.write.toNat + 1)).length := by omega
      have hemp : (((sig.samples.take (sig.write.toNat + 1)).drop (sig.read + 1)).map
          (fun smp => (smp.sequence, sig.line_of smp))).isEmpty = false := by
        rw [List.drop_eq_getElem_cons hrL2]
        rfl
      rw [hemp]
      unfold value.rem
      simp only [if_false]
      rw [if_neg (by push_cast; omega)]
      simp [value.line_of]

-- ------------------------------------------------------------------
-- Registry lemmas

lemma map_update_of_not_mem (l : List (String × slot_fn)) (id : String)
    (f : String × slot_fn → String × slot_fn) (h : id ∉ l.map Prod.fst) :
    l.map (fun p => if p.1 = id then f p else p) = l := by
  induction l with
  | nil => rfl
  | cons p rest ih =>
    have hp : ¬ p.1 = id := fun he => h (by simp [he])
    rw [List.map_cons, if_neg hp, ih (fun he => h (by simp [he]))]

lemma invoke_dumper_eq (slots : List (String × slot_fn)) (id : String) (start : Bool)
    (sl : slot_fn) (hnd : (slots.map Prod.fst).Nodup) (hmem : (id, sl) ∈ slots) :
    invoke_dumper slots id start =
      (slots.map (fun p => if p.1 = id then (id, (sl.dump start).1) else p),
       (sl.dump start).2.1, (sl.dump start).2.2) := by
  induction slots with
  | nil => cases hmem
  | cons p rest ih =>
    obtain ⟨hp, hnd2⟩ := List.nodup_cons.mp hnd
    rcases List.mem_cons.mp hmem with h | h
    · subst h
      unfold invoke_dumper
      rw [if_pos rfl, List.map_cons, if_pos rfl]
      rw [map_update_of_not_mem rest id _ (by simpa using hp)]
    · have hne : ¬ p.1 = id := by
        intro he
        exact hp (he ▸ (List.mem_map.mpr ⟨(id, sl), h, rfl⟩))
      unfold invoke_dumper
      rw [if_neg hne, ih hnd2 h, List.map_cons, if_neg hne]

lemma slots_rem_append (A B : List (String × slot_fn)) :
    slots_rem (A ++ B) = slots_rem A ++ slots_rem B := by
  unfold slots_rem
  rw [List.flatMap_append]

lemma heads_of_append (A B : List (String × slot_fn)) :
    heads_of (A ++ B) = heads_of A ++ heads_of B := by
  unfold heads_of
  rw [List.filterMap_append]

lemma slots_rem_cons (p : String × slot_fn) (B : List (String × slot_fn)) :
    slots_rem (p :: B) = p.2.rem ++ slots_rem B := by
  unfold slots_rem
  rw [List.flatMap_cons]

lemma heads_of_cons (p : String × slot_fn) (B : List (String × slot_fn)) :
    heads_of (p :: B) =
      (match p.2.rem with
        | [] => []
        | e :: _ => [(e.1, p.1)]) ++ heads_of B := by
  unfold heads_of
  rw [List.filterMap_cons]
  match h : p.2.rem with
  | [] => simp [h]
  | e :: r => simp [h]

lemma heads_keys_sub_rem_keys (slots : List (String × slot_fn)) :
    ∀ e ∈ heads_of slots, ∃ l, (e.1, l) ∈ slots_rem slots := by
  induction slots with
  | nil => intro e he; cases he
  | cons p rest ih =>
    intro e he
    rw [heads_of_cons] at he
    rw [slots_rem_cons]
    rcases List.mem_append.mp he with he | he
    · match h : p.2.rem with
      | [] => rw [h] at he; cases he
      | f :: r =>
        rw [h] at he
        simp only [List.mem_singleton] at he
        subst he
        refine ⟨f.2, List.mem_append.mpr (Or.inl ?_)⟩
        exact List.mem_cons_self _ _
    · obtain ⟨l, hl⟩ := ih e he
      exact ⟨l, List.mem_append.mpr (Or.inr hl)⟩

-- ------------------------------------------------------------------
-- The peek pass

lemma slot_fn.dump_live (sig : value) (start : Bool) :
    (slot_fn.live sig).dump start =
      (slot_fn.live (sig.dump start).1, (sig.dump start).2.1, (sig.dump start).2.2) := rfl

lemma slot_peek_outs (sl : slot_fn) (h : sl.wf) : (sl.dump true).2.1 = [] := by
  match sl with
  | .nop => rfl
  | .live sig =>
    obtain ⟨hd2, _⟩ := h
    show (sig.dump true).2.1 = []
    rw [value.dump_peek sig (by omega)]
    split <;> rfl

/-- C10 part one at the slot level: a dump callback invoked with
start = true never reports a dumped sequence. -/
lemma slot_peek_dumped (sl : slot_fn) : (sl.dump true).2.2.dumped = none := by
  match sl with
  | .nop => rfl
  | .live sig =>
    show (sig.dump true).2.2.dumped = none
    by_cases hd : sig.depth = 1
    · unfold value.dump
      rw [if_pos hd]
      split <;> rfl
    · rw [value.dump_peek sig hd]
      split <;> rfl

lemma slot_peek_rem (sl : slot_fn) (h : sl.wf) : ((sl.dump true).1).rem = pend_of sl := by
  match sl with
  | .nop => rfl
  | .live sig =>
    obtain ⟨hd2, hlen, hw1, hwd, hpw, hbound⟩ := h
    show (slot_fn.live (sig.dump true).1).rem = pend_of (slot_fn.live sig)
    rw [value.dump_peek sig (by omega)]
    by_cases hw : sig.write < 0
    · rw [if_pos hw]
      show ({ sig with read := 0, write := -1 } : value).rem = pend_of (slot_fn.live sig)
      unfold value.rem pend_of value.pending
      simp [hw]
    · rw [if_neg hw]
      show ({ sig with read := 0 } : value).rem = pend_of (slot_fn.live sig)
      rw [value.rem_read_zero]
      rfl

lemma slot_peek_wfr (sl : slot_fn) (h : sl.wf) : ((sl.dump true).1).wfr := by
  have hrem := slot_peek_rem sl h
  match sl with
  | .nop => trivial
  | .live sig =>
    obtain ⟨hd2, hlen, hw1, hwd, hpw, hbound⟩ := h
    show ((slot_fn.live sig).dump true).1.wfr
    have hpend : ∀ e ∈ pend_of (slot_fn.live sig), e.1 < 2 ^ 62 := by
      intro e he
      unfold pend_of at he
      obtain ⟨smp, hsmp, rfl⟩ := List.mem_map.mp he
      exact hbound smp hsmp
    have hpwk : ((pend_of (slot_fn.live sig)).map Prod.fst).Pairwise (· < ·) := by
      unfold pend_of
      rw [List.map_map]
      exact hpw
    rw [slot_fn.dump_live]
    show ((sig.dump true).1).wfr
    have hrem2 : ((sig.dump true).1).rem = pend_of (slot_fn.live sig) := hrem
    rw [value.dump_peek sig (by omega)]
    rw [value.dump_peek sig (by omega)] at hrem2
    by_cases hw : sig.write < 0
    · rw [if_pos hw] at *
      exact ⟨hd2, hlen, by show (-1 : Int) < ((sig.depth : Nat) : Int); omega,
        by rw [hrem2]; exact hpwk, by rw [hrem2]; exact hpend⟩
    · rw [if_neg hw] at *
      exact ⟨hd2, hlen, by show sig.write < ((sig.depth : Nat) : Int); omega,
        by rw [hrem2]; exact hpwk, by rw [hrem2]; exact hpend⟩

-- ------------------------------------------------------------------
-- Sorting the pending entries

lemma sort_pairs_perm (l : List (Nat × String)) : List.Perm (sort_pairs l) l := by
  induction l with
  | nil => exact List.Perm.refl []
  | cons e rest ih =>
    have hstep : sort_pairs (e :: rest) = insort_pair e (sort_pairs rest) := rfl
    rw [hstep]
    exact (insort_pair_perm e _).trans (List.Perm.cons e ih)

lemma sort_pairs_pairwise (l : List (Nat × String)) (hnd : (l.map Prod.fst).Nodup) :
    (sort_pairs l).Pairwise key_lt := by
  induction l with
  | nil => exact List.Pairwise.nil
  | cons e rest ih =>
    rw [List.map_cons, List.nodup_cons] at hnd
    have hperm := (sort_pairs_perm rest).map Prod.fst
    have hstep : sort_pairs (e :: rest) = insort_pair e (sort_pairs rest) := rfl
    rw [hstep]
    refine insort_pair_pairwise e _ (ih hnd.2) ?_
    intro hmem
    exact hnd.1 (hperm.mem_iff.mp hmem)

-- ------------------------------------------------------------------
-- Pending-entry bookkeeping

lemma pend_entries_cons (p : String × slot_fn) (rest : List (String × slot_fn)) :
    pend_entries (p :: rest) = pend_of p.2 ++ pend_entries rest := by
  unfold pend_entries
  rw [List.flatMap_cons]

lemma mem_slots_rem (slots : List (String × slot_fn)) (e : Nat × String)
    (he : e ∈ slots_rem slots) : ∃ p ∈ slots, e ∈ p.2.rem := by
  unfold slots_rem at he
  obtain ⟨p, hp, he2⟩ := List.mem_flatMap.mp he
  exact ⟨p, hp, he2⟩

lemma slot_rem_pairwise (sl : slot_fn) (h : sl.wfr) :
    (sl.rem.map Prod.fst).Pairwise (· < ·) := by
  match sl with
  | .nop => exact List.Pairwise.nil
  | .live sig =>
    have h2 : sig.wfr := h
    exact h2.2.2.2.1

lemma slot_rem_bound (sl : slot_fn) (h : sl.wfr) : ∀ e ∈ sl.rem, e.1 < 2 ^ 62 := by
  match sl with
  | .nop => intro e he; cases he
  | .live sig =>
    have h2 : sig.wfr := h
    exact h2.2.2.2.2

lemma mem_heads_of (slots : List (String × slot_fn)) (q : Nat) (id : String)
    (h : (q, id) ∈ heads_of slots) :
    ∃ sl l r, (id, sl) ∈ slots ∧ sl.rem = (q, l) :: r := by
  unfold heads_of at h
  obtain ⟨p, hp, he⟩ := List.mem_filterMap.mp h
  match hrem : p.2.rem with
  | [] => rw [hrem] at he; cases he
  | e :: r =>
    rw [hrem] at he
    have hpair := Option.some.inj he
    have h1 : e.1 = q := congrArg Prod.fst hpair
    have h2 : p.1 = id := congrArg Prod.snd hpair
    refine ⟨p.2, e.2, r, ?_, ?_⟩
    · rw [← h2]
      exact hp
    · rw [hrem, ← h1]

lemma head_of_sorted_min (R : List (Nat × String)) (e : Nat × String)
    (hmem : e ∈ R) (hmin : ∀ f ∈ R, e.1 ≤ f.1) (hsort : R.Pairwise key_lt) :
    ∃ R2, R = e :: R2 := by
  match R with
  | [] => cases hmem
  | f :: R2 =>
    rcases List.mem_cons.mp hmem with h | h
    · exact ⟨R2, by rw [h]⟩
    · obtain ⟨hf, _⟩ := List.pairwise_cons.mp hsort
      have h1 : f.1 < e.1 := hf e h
      have h2 : e.1 ≤ f.1 := hmin f (List.mem_cons_self f R2)
      omega

lemma rem_key_ge_head (slots : List (String × slot_fn))
    (hwfr : ∀ p ∈ slots, p.2.wfr) :
    ∀ e ∈ slots_rem slots, ∃ h ∈ heads_of slots, h.1 ≤ e.1 := by
  induction slots with
  | nil => intro e he; cases he
  | cons p rest ih =>
    intro e he
    rw [slots_rem_cons] at he
    rcases List.mem_append.mp he with he | he
    · match hrem : p.2.rem with
      | [] => rw [hrem] at he; cases he
      | f :: r =>
        refine ⟨(f.1, p.1), ?_, ?_⟩
        · rw [heads_of_cons, hrem]
          exact List.mem_append.mpr (Or.inl (List.mem_singleton.mpr rfl))
        · have hpw := slot_rem_pairwise p.2 (hwfr p (List.mem_cons_self p rest))
          rw [hrem, List.map_cons] at hpw
          obtain ⟨hf, _⟩ := List.pairwise_cons.mp hpw
          rw [hrem] at he
          rcases List.mem_cons.mp he with he | he
          · exact le_of_eq (by rw [he])
          · exact le_of_lt (hf e.1 (List.mem_map.mpr ⟨e, he, rfl⟩))
    · obtain ⟨h, hh, hle⟩ := ih (fun pr hpr => hwfr pr (List.mem_cons_of_mem p hpr)) e he
      refine ⟨h, ?_, hle⟩
      rw [heads_of_cons]
      exact List.mem_append.mpr (Or.inr hh)

lemma status_insert_head (q : Nat) (id : String) (H2 : List (Nat × String))
    (nq : Nat) (id2 : String) (hgt : q < nq) (hfresh : nq ∉ H2.map Prod.fst) :
    status_insert (mk_status ((q, id) :: H2)) nq id2 =
      (q, [id]) :: mk_status (insort_pair (nq, id2) H2) := by
  have hstep : mk_status ((q, id) :: H2) = (q, [id]) :: mk_status H2 := rfl
  rw [hstep]
  unfold status_insert
  rw [if_neg (by omega), if_neg (by omega)]
  rw [status_insert_mk H2 nq id2 hfresh]

-- ------------------------------------------------------------------
-- The peek pass, assembled

lemma slot_peek_next (sl : slot_fn) (h : sl.wf) :
    (sl.dump true).2.2.next = (pend_of sl).head?.map Prod.fst := by
  match sl with
  | .nop => rfl
  | .live sig =>
    obtain ⟨hd2, hlen, hw1, hwd, hpw, hbound⟩ := h
    have hpend : pend_of (slot_fn.live sig) =
        sig.pending.map (fun smp => (smp.sequence, sig.line_of smp)) := rfl
    show (sig.dump true).2.2.next = (pend_of (slot_fn.live sig)).head?.map Prod.fst
    rw [hpend, value.dump_peek sig (by omega)]
    unfold value.pending
    by_cases hw : sig.write < 0
    · rw [if_pos hw, if_pos hw]
      rfl
    · rw [if_neg hw, if_neg hw]
      have h0 : 0 < sig.samples.length := by omega
      have hlt : 0 < sig.write.toNat + 1 := by omega
      have hsome : sig.samples[0]? = some (sig.samples[0]) := List.getElem?_eq_getElem h0
      simp [Nat.zero_mod, List.getD_eq_getElem?_getD, hsome, List.head?_eq_getElem?,
        List.getElem?_take, hlt]

lemma slot_consume (sl : slot_fn) (h : sl.wfr) (hne : sl.rem ≠ []) :
    ∃ sl2 e r, sl.rem = e :: r ∧
      sl.dump false = (sl2, [e.2], ⟨some e.1, r.head?.map Prod.fst⟩) ∧
      sl2.rem = r ∧ sl2.wfr := by
  match sl with
  | .nop => exact absurd rfl hne
  | .live sig =>
    have hwf : sig.wfr := h
    have hne2 : sig.rem ≠ [] := hne
    obtain ⟨e, r, hrem, hdump, hrem2⟩ := value.dump_consume sig hwf hne2
    obtain ⟨hd2, hlen, hwd, hpw, hbound⟩ := hwf
    refine ⟨slot_fn.live
      { sig with
        read := sig.read + 1
        write := if r.isEmpty then -1 else sig.write }, e, r, hrem, ?_, hrem2, ?_⟩
    · rw [slot_fn.dump_live, hdump]
    · refine ⟨hd2, hlen, ?_, ?_, ?_⟩
      · show (if r.isEmpty then (-1 : Int) else sig.write) < ((sig.depth : Nat) : Int)
        by_cases hr : r.isEmpty
        · rw [if_pos hr]
          omega
        · rw [if_neg hr]
          exact hwd
      · rw [hrem2]
        rw [hrem, List.map_cons] at hpw
        exact (List.pairwise_cons.mp hpw).2
      · rw [hrem2]
        intro f hf
        exact hbound f (by rw [hrem]; exact List.mem_cons_of_mem e hf)

lemma foldl_first_pass_first (slots : List (String × slot_fn)) (acc : pass_state) :
    (slots.foldl first_pass_step acc).first = acc.first := by
  induction slots generalizing acc with
  | nil => rfl
  | cons p rest ih =>
    rw [List.foldl_cons, ih]
    show first_update acc.first (p.2.dump true).2.2.dumped = acc.first
    rw [slot_peek_dumped]
    rfl

lemma peek_rem_pend (slots : List (String × slot_fn))
    (hwf : ∀ p ∈ slots, p.2.wf) :
    slots_rem (slots.map (fun p => (p.1, (p.2.dump true).1))) = pend_entries slots := by
  induction slots with
  | nil => rfl
  | cons p rest ih =>
    rw [List.map_cons, slots_rem_cons, pend_entries_cons,
      ih (fun pr h => hwf pr (List.mem_cons_of_mem p h))]
    dsimp only
    rw [slot_peek_rem p.2 (hwf p (List.mem_cons_self p rest))]

lemma pend_of_len_le (sl : slot_fn) (h : sl.wf) : (pend_of sl).length ≤ slot_fuel sl := by
  match sl with
  | .nop => exact Nat.zero_le 1
  | .live sig =>
    obtain ⟨hd2, hlen, hw1, hwd, hpw, hbound⟩ := h
    show (sig.pending.map (fun smp => (smp.sequence, sig.line_of smp))).length ≤ sig.depth + 2
    rw [List.length_map]
    unfold value.pending
    by_cases hw : sig.write < 0
    · rw [if_pos hw]
      exact Nat.zero_le _
    · rw [if_neg hw]
      rw [List.length_take]
      omega

lemma pend_entries_len_lt (slots : List (String × slot_fn))
    (hwf : ∀ p ∈ slots, p.2.wf) :
    (pend_entries slots).length < 1 + (slots.map (fun p => slot_fuel p.2)).sum := by
  induction slots with
  | nil => simp [pend_entries]
  | cons p rest ih =>
    rw [pend_entries_cons, List.length_append, List.map_cons, List.sum_cons]
    have h1 := pend_of_len_le p.2 (hwf p (List.mem_cons_self p rest))
    have h2 := ih (fun pr h => hwf pr (List.mem_cons_of_mem p h))
    omega

lemma first_pass_go (rest : List (String × slot_fn)) (acc : pass_state)
    (H : List (Nat × String))
    (hwf : ∀ p ∈ rest, p.2.wf)
    (hst : acc.status = mk_status H)
    (hHpw : H.Pairwise key_lt)
    (hdisj : ∀ k ∈ H.map Prod.fst, k ∉ (pend_entries rest).map Prod.fst)
    (hnd : ((pend_entries rest).map Prod.fst).Nodup) :
    ∃ H2 : List (Nat × String),
      rest.foldl first_pass_step acc =
        { slots := acc.slots ++ rest.map (fun p => (p.1, (p.2.dump true).1))
          outs := acc.outs
          status := mk_status H2
          first := acc.first } ∧
      H2.Pairwise key_lt ∧
      List.Perm H2 (H ++ heads_of (rest.map (fun p => (p.1, (p.2.dump true).1)))) := by
  induction rest generalizing acc H with
  | nil =>
    refine ⟨H, ?_, hHpw, ?_⟩
    · rw [List.foldl_nil, List.map_nil, List.append_nil, ← hst]
    · rw [List.map_nil]
      show List.Perm H (H ++ heads_of [])
      simp [heads_of]
  | cons p rest2 ih =>
    rw [List.foldl_cons]
    have hwfp : p.2.wf := hwf p (List.mem_cons_self p rest2)
    have hnext := slot_peek_next p.2 hwfp
    have houts := slot_peek_outs p.2 hwfp
    have hdumped := slot_peek_dumped p.2
    have hprem := slot_peek_rem p.2 hwfp
    have hstep : first_pass_step acc p =
        { slots := acc.slots ++ [(p.1, (p.2.dump true).1)]
          outs := acc.outs ++ (p.2.dump true).2.1
          status := match (p.2.dump true).2.2.next with
            | some q => status_insert acc.status q p.1
            | none => acc.status
          first := first_update acc.first (p.2.dump true).2.2.dumped } := rfl
    have hfu : first_update acc.first none = acc.first := rfl
    rw [hstep, houts, hdumped, hnext, hfu, List.append_nil]
    have hwf2 : ∀ pr ∈ rest2, pr.2.wf := fun pr h => hwf pr (List.mem_cons_of_mem p h)
    have hnd2 : ((pend_entries rest2).map Prod.fst).Nodup := by
      rw [pend_entries_cons, List.map_append] at hnd
      exact (List.nodup_append.mp hnd).2.1
    have hkeys : ∀ k ∈ (pend_of p.2).map Prod.fst, k ∉ (pend_entries rest2).map Prod.fst := by
      rw [pend_entries_cons, List.map_append] at hnd
      intro k hk hk2
      exact (List.nodup_append.mp hnd).2.2 hk hk2
    match hpend : pend_of p.2 with
    | [] =>
      dsimp only [List.head?, Option.map]
      have hdisj2 : ∀ k ∈ H.map Prod.fst, k ∉ (pend_entries rest2).map Prod.fst := by
        intro k hk hk2
        refine hdisj k hk ?_
        rw [pend_entries_cons, List.map_append]
        exact List.mem_append.mpr (Or.inr hk2)
      obtain ⟨H2, heq, hpw2, hperm2⟩ := ih
        { slots := acc.slots ++ [(p.1, (p.2.dump true).1)]
          outs := acc.outs
          status := acc.status
          first := acc.first } H hwf2 hst hHpw hdisj2 hnd2
      refine ⟨H2, ?_, hpw2, ?_⟩
      · rw [heq]
        simp [List.append_assoc]
      · refine hperm2.trans (List.Perm.append_left H ?_)
        rw [List.map_cons, heads_of_cons]
        dsimp only
        rw [hprem, hpend]
        exact List.Perm.refl _
    | (q, l) :: pr =>
      dsimp only [List.head?, Option.map]
      have hqmem : q ∈ (pend_of p.2).map Prod.fst := by
        rw [hpend, List.map_cons]
        exact List.mem_cons_self _ _
      have hqpend : q ∈ (pend_entries (p :: rest2)).map Prod.fst := by
        rw [pend_entries_cons, List.map_append]
        exact List.mem_append.mpr (Or.inl hqmem)
      have hqH : q ∉ H.map Prod.fst := fun hq => hdisj q hq hqpend
      have hins := status_insert_mk H q p.1 hqH
      have hdisj2 : ∀ k ∈ (insort_pair (q, p.1) H).map Prod.fst,
          k ∉ (pend_entries rest2).map Prod.fst := by
        intro k hk hk2
        have hk3 := ((insort_pair_perm (q, p.1) H).map Prod.fst).mem_iff.mp hk
        rcases List.mem_cons.mp hk3 with hk3 | hk3
        · dsimp only at hk3
          subst hk3
          exact hkeys k hqmem hk2
        · refine hdisj k hk3 ?_
          rw [pend_entries_cons, List.map_append]
          exact List.mem_append.mpr (Or.inr hk2)
      obtain ⟨H2, heq, hpw2, hperm2⟩ := ih
        { slots := acc.slots ++ [(p.1, (p.2.dump true).1)]
          outs := acc.outs
          status := status_insert acc.status q p.1
          first := acc.first } (insort_pair (q, p.1) H) hwf2
        (by rw [hst, hins]) (insort_pair_pairwise (q, p.1) H hHpw hqH) hdisj2 hnd2
      refine ⟨H2, ?_, hpw2, ?_⟩
      · rw [heq]
        simp [List.append_assoc]
      · refine hperm2.trans ?_
        have hh : heads_of ((p :: rest2).map (fun p => (p.1, (p.2.dump true).1))) =
            (q, p.1) :: heads_of (rest2.map (fun p => (p.1, (p.2.dump true).1))) := by
          rw [List.map_cons, heads_of_cons]
          dsimp only
          rw [hprem, hpend]
          rfl
        rw [hh]
        refine (List.Perm.append_right _ (insort_pair_perm (q, p.1) H)).trans ?_
        show List.Perm ((q, p.1) :: (H ++ _)) (H ++ (q, p.1) :: _)
        exact List.perm_middle.symm

lemma first_pass_spec (slots : List (String × slot_fn))
    (hwf : ∀ p ∈ slots, p.2.wf)
    (hnd : ((pend_entries slots).map Prod.fst).Nodup) :
    ∃ H : List (Nat × String),
      first_pass slots =
        { slots := slots.map (fun p => (p.1, (p.2.dump true).1))
          outs := []
          status := mk_status H
          first := none } ∧
      H.Pairwise key_lt ∧
      List.Perm H (heads_of (slots.map (fun p => (p.1, (p.2.dump true).1)))) := by
  obtain ⟨H, heq, hpw, hperm⟩ := first_pass_go slots ⟨[], [], [], none⟩ [] hwf rfl
    List.Pairwise.nil (by intro k hk hk2; simp at hk) hnd
  refine ⟨H, ?_, hpw, ?_⟩
  · unfold first_pass
    rw [heq]
    rfl
  · simpa using hperm

lemma drain_go (fuel : Nat) (s : top) (H R : List (Nat × String)) (q0 p : Nat)
    (hfuel : R.length < fuel)
    (hids : (s.dumper_map.map Prod.fst).Nodup)
    (hwfr : ∀ pr ∈ s.dumper_map, pr.2.wfr)
    (hRperm : List.Perm R (slots_rem s.dumper_map))
    (hRsort : R.Pairwise key_lt)
    (hHperm : List.Perm H (heads_of s.dumper_map))
    (hHsort : H.Pairwise key_lt)
    (hq0p : q0 ≤ p)
    (hRgt : ∀ e ∈ R, p < e.1)
    (hts : s.timestamp < 2 ^ 62)
    (hp : p < 2 ^ 62)
    (htp : s.tracepoint = s.timestamp + (p - q0)) :
    ∃ p2, q0 ≤ p2 ∧ p2 < 2 ^ 62 ∧
      (drain fuel s (mk_status H) (some q0)).out = s.out ++ ref_rest s.timestamp q0 R ∧
      (drain fuel s (mk_status H) (some q0)).timestamp = s.timestamp ∧
      (drain fuel s (mk_status H) (some q0)).tracepoint = s.timestamp + (p2 - q0) := by
  induction fuel generalizing s H R p with
  | zero => omega
  | succ f ih =>
    cases H with
    | nil =>
      have hhe : heads_of s.dumper_map = [] := hHperm.symm.eq_nil
      have hR : R = [] := by
        cases hR0 : R with
        | nil => rfl
        | cons e R2 =>
          exfalso
          have hmem : e ∈ slots_rem s.dumper_map :=
            hRperm.mem_iff.mp (by rw [hR0]; exact List.mem_cons_self e R2)
          obtain ⟨h, hh, _⟩ := rem_key_ge_head s.dumper_map hwfr e hmem
          rw [hhe] at hh
          cases hh
      subst hR
      refine ⟨p, hq0p, hp, ?_, rfl, htp⟩
      show s.out = s.out ++ ([] : List String)
      exact (List.append_nil s.out).symm
    | cons qid H' =>
      obtain ⟨q, id⟩ := qid
      have hqmin : ∀ x ∈ (q, id) :: H', q ≤ x.1 := by
        intro x hx
        rcases List.mem_cons.mp hx with hx | hx
        · exact le_of_eq (by rw [hx])
        · exact le_of_lt ((List.pairwise_cons.mp hHsort).1 x hx)
      have hqid_heads : (q, id) ∈ heads_of s.dumper_map :=
        hHperm.mem_iff.mp (List.mem_cons_self _ _)
      obtain ⟨sl, l, r, hmem_sl, hslrem⟩ := mem_heads_of s.dumper_map q id hqid_heads
      obtain ⟨A, B, hAB⟩ := List.append_of_mem hmem_sl
      have hql_rem : (q, l) ∈ slots_rem s.dumper_map := by
        unfold slots_rem
        refine List.mem_flatMap.mpr ⟨(id, sl), hmem_sl, ?_⟩
        show (q, l) ∈ sl.rem
        rw [hslrem]
        exact List.mem_cons_self _ _
      have hqlR : (q, l) ∈ R := hRperm.mem_iff.mpr hql_rem
      have hminR : ∀ e ∈ R, q ≤ e.1 := by
        intro e he
        obtain ⟨h2, hh2, hle⟩ := rem_key_ge_head s.dumper_map hwfr e (hRperm.mem_iff.mp he)
        exact le_trans (hqmin h2 (hHperm.mem_iff.mpr hh2)) hle
      obtain ⟨R', hR⟩ := head_of_sorted_min R (q, l) hqlR hminR hRsort
      have hq62 : q < 2 ^ 62 := by
        obtain ⟨prr, hprr, hein⟩ := mem_slots_rem s.dumper_map (q, l) hql_rem
        exact slot_rem_bound prr.2 (hwfr prr hprr) (q, l) hein
      have hpq : p < q := hRgt (q, l) hqlR
      have hslwfr : sl.wfr := hwfr (id, sl) hmem_sl
      have hslne : sl.rem ≠ [] := by rw [hslrem]; exact List.cons_ne_nil _ _
      obtain ⟨sl2, e0, r0, hrem0, hdump0, hrem20, hwfr20⟩ := slot_consume sl hslwfr hslne
      rw [hslrem] at hrem0
      injection hrem0 with he0 hr0
      subst he0
      subst hr0
      have hkeysnd : (A.map Prod.fst ++ (id :: B.map Prod.fst)).Nodup := by
        have h1 := hids
        rw [hAB, List.map_append, List.map_cons] at h1
        exact h1
      have hidA : id ∉ A.map Prod.fst := by
        intro hmem'
        exact (List.nodup_append.mp hkeysnd).2.2 hmem' (List.mem_cons_self _ _)
      have hidB : id ∉ B.map Prod.fst :=
        (List.nodup_cons.mp (List.nodup_append.mp hkeysnd).2.1).1
      have hsr : slots_rem s.dumper_map =
          slots_rem A ++ (((q, l) :: r) ++ slots_rem B) := by
        rw [hAB, slots_rem_append, slots_rem_cons]
        show slots_rem A ++ (sl.rem ++ slots_rem B) = _
        rw [hslrem]
      have hremnd : ((slots_rem s.dumper_map).map Prod.fst).Nodup := by
        refine (hRperm.map Prod.fst).nodup_iff.mp ?_
        have h2 : (R.map Prod.fst).Pairwise (· < ·) :=
          List.pairwise_map.mpr (hRsort.imp (fun h => h))
        exact h2.imp Nat.ne_of_lt
      have hsrknd : ((slots_rem A).map Prod.fst ++ (((q, l) :: r).map Prod.fst ++
          (slots_rem B).map Prod.fst)).Nodup := by
        have h1 := hremnd
        rw [hsr, List.map_append, List.map_append] at h1
        exact h1
      have hheads : heads_of s.dumper_map = heads_of A ++ ((q, id) :: heads_of B) := by
        rw [hAB, heads_of_append, heads_of_cons]
        show heads_of A ++ ((match sl.rem with
          | [] => ([] : List (Nat × String))
          | e :: _ => [(e.1, id)]) ++ heads_of B) = _
        rw [hslrem]
        rfl
      have hH'perm : List.Perm H' (heads_of A ++ heads_of B) := by
        have h1 : List.Perm ((q, id) :: H') ((q, id) :: (heads_of A ++ heads_of B)) :=
          hHperm.trans (by rw [hheads]; exact List.perm_middle)
        exact h1.cons_inv
      have hupd : s.dumper_map.map (fun pr => if pr.1 = id then (id, sl2) else pr) =
          A ++ (id, sl2) :: B := by
        rw [hAB, List.map_append, List.map_cons]
        rw [map_update_of_not_mem A id _ hidA, map_update_of_not_mem B id _ hidB]
        show A ++ (if (id, sl).1 = id then (id, sl2) else (id, sl)) :: B = _
        rw [if_pos rfl]
      have hwfr2' : ∀ pr ∈ A ++ (id, sl2) :: B, pr.2.wfr := by
        intro pr hpr
        rcases List.mem_append.mp hpr with hpr | hpr
        · exact hwfr pr (by rw [hAB]; exact List.mem_append.mpr (Or.inl hpr))
        · rcases List.mem_cons.mp hpr with hpr | hpr
          · rw [hpr]
            exact hwfr20
          · exact hwfr pr
              (by rw [hAB]; exact List.mem_append.mpr (Or.inr (List.mem_cons_of_mem _ hpr)))
      have hids2 : ((A ++ (id, sl2) :: B).map Prod.fst).Nodup := by
        rw [List.map_append, List.map_cons]
        exact hkeysnd
      have hslots2 : slots_rem (A ++ (id, sl2) :: B) =
          slots_rem A ++ (r ++ slots_rem B) := by
        rw [slots_rem_append, slots_rem_cons]
        show slots_rem A ++ (sl2.rem ++ slots_rem B) = _
        rw [hrem20]
      have hR'perm : List.Perm R' (slots_rem (A ++ (id, sl2) :: B)) := by
        have h1 : List.Perm ((q, l) :: R')
            ((q, l) :: (slots_rem A ++ (r ++ slots_rem B))) := by
          refine (hR ▸ hRperm).trans ?_
          rw [hsr]
          show List.Perm (slots_rem A ++ ((q, l) :: (r ++ slots_rem B))) _
          exact List.perm_middle
        rw [hslots2]
        exact h1.cons_inv
      have hRcons := hR ▸ hRsort
      have hR'sort : R'.Pairwise key_lt := (List.pairwise_cons.mp hRcons).2
      have hR'gt : ∀ e ∈ R', q < e.1 := fun e he => (List.pairwise_cons.mp hRcons).1 e he
      have hfuel2 : R'.length < f := by
        have h1 : R.length = R'.length + 1 := by rw [hR]; rfl
        omega
      have hs1 : s.log_time (addmod64 s.timestamp (submod64 q q0)) false =
          { s with
            out := s.out ++ [time_line (s.timestamp + (q - q0))]
            tracepoint := s.timestamp + (q - q0) } := by
        rw [submod64_eq q q0 (by omega) (by omega),
          addmod64_eq s.timestamp (q - q0) (by omega)]
        unfold top.log_time
        rw [if_pos (Or.inr (by rw [htp]; omega))]
      cases r with
      | nil =>
        have hheads2 : heads_of (A ++ (id, sl2) :: B) = heads_of A ++ heads_of B := by
          rw [heads_of_append, heads_of_cons]
          show heads_of A ++ ((match sl2.rem with
            | [] => ([] : List (Nat × String))
            | e :: _ => [(e.1, id)]) ++ heads_of B) = _
          rw [hrem20]
          rfl
        have hdrain_eq : drain (f + 1) s (mk_status ((q, id) :: H')) (some q0) =
            drain f
              { s with
                tracepoint := s.timestamp + (q - q0)
                dumper_map := A ++ (id, sl2) :: B
                out := (s.out ++ [time_line (s.timestamp + (q - q0))]) ++ [l] }
              (mk_status H') (some q0) := by
          show drain f
              (List.foldl drain_consume
                (s.log_time (addmod64 s.timestamp (submod64 q q0)) false,
                  (q, [id]) :: mk_status H') [id]).1
              ((List.foldl drain_consume
                (s.log_time (addmod64 s.timestamp (submod64 q q0)) false,
                  (q, [id]) :: mk_status H') [id]).2.drop 1)
              (some q0) = _
          rw [List.foldl_cons, List.foldl_nil, hs1]
          unfold drain_consume
          dsimp only
          rw [invoke_dumper_eq s.dumper_map id false sl hids hmem_sl]
          simp only [hdump0]
          dsimp only [List.head?, Option.map]
          rw [hupd]
          rfl
        obtain ⟨p2, hp2a, hp2b, hout2, hts2, htp2⟩ := ih
          { s with
            tracepoint := s.timestamp + (q - q0)
            dumper_map := A ++ (id, sl2) :: B
            out := (s.out ++ [time_line (s.timestamp + (q - q0))]) ++ [l] }
          H' R' q hfuel2 hids2 hwfr2' hR'perm hR'sort (hheads2.symm ▸ hH'perm)
          (List.pairwise_cons.mp hHsort).2 (by omega) hR'gt hts hq62 rfl
        refine ⟨p2, hp2a, hp2b, ?_, ?_, ?_⟩
        · rw [hdrain_eq, hout2, hR]
          simp [ref_rest, List.append_assoc]
        · rw [hdrain_eq, hts2]
        · rw [hdrain_eq, htp2]
      | cons e2 r2 =>
        have hslpw := slot_rem_pairwise sl hslwfr
        rw [hslrem, List.map_cons, List.map_cons] at hslpw
        have hqnq : q < e2.1 :=
          (List.pairwise_cons.mp hslpw).1 e2.1 (List.mem_cons_self _ _)
        have hnq_rem : e2.1 ∈ ((q, l) :: e2 :: r2).map Prod.fst := by
          rw [List.map_cons, List.map_cons]
          exact List.mem_cons_of_mem _ (List.mem_cons_self _ _)
        have hnq_fresh : e2.1 ∉ H'.map Prod.fst := by
          intro hmem'
          have h1 : e2.1 ∈ (heads_of A ++ heads_of B).map Prod.fst :=
            ((hH'perm.map Prod.fst).mem_iff).mp hmem'
          rw [List.map_append] at h1
          obtain ⟨hnd1, hnd2, hdis1⟩ := List.nodup_append.mp hsrknd
          obtain ⟨hnd3, hnd4, hdis2⟩ := List.nodup_append.mp hnd2
          rcases List.mem_append.mp h1 with h1 | h1
          · obtain ⟨hpair, hpmem, hfst⟩ := List.mem_map.mp h1
            obtain ⟨l2, hl2⟩ := heads_keys_sub_rem_keys A hpair hpmem
            have h3 : e2.1 ∈ (slots_rem A).map Prod.fst := by
              rw [← hfst]
              exact List.mem_map.mpr ⟨(hpair.1, l2), hl2, rfl⟩
            exact hdis1 h3 (List.mem_append.mpr (Or.inl hnq_rem))
          · obtain ⟨hpair, hpmem, hfst⟩ := List.mem_map.mp h1
            obtain ⟨l2, hl2⟩ := heads_keys_sub_rem_keys B hpair hpmem
            have h3 : e2.1 ∈ (slots_rem B).map Prod.fst := by
              rw [← hfst]
              exact List.mem_map.mpr ⟨(hpair.1, l2), hl2, rfl⟩
            exact hdis2 hnq_rem h3
        have hstatus : status_insert ((q, [id]) :: mk_status H') e2.1 id =
            (q, [id]) :: mk_status (insort_pair (e2.1, id) H') :=
          status_insert_head q id H' e2.1 id hqnq hnq_fresh
        have hheads2 : heads_of (A ++ (id, sl2) :: B) =
            heads_of A ++ ((e2.1, id) :: heads_of B) := by
          rw [heads_of_append, heads_of_cons]
          show heads_of A ++ ((match sl2.rem with
            | [] => ([] : List (Nat × String))
            | e :: _ => [(e.1, id)]) ++ heads_of B) = _
          rw [hrem20]
          rfl
        have hH2perm : List.Perm (insort_pair (e2.1, id) H')
            (heads_of (A ++ (id, sl2) :: B)) := by
          rw [hheads2]
          refine (insort_pair_perm (e2.1, id) H').trans ?_
          refine (List.Perm.cons (e2.1, id) hH'perm).trans ?_
          exact List.perm_middle.symm
        have hH2sort := insort_pair_pairwise (e2.1, id) H'
          (List.pairwise_cons.mp hHsort).2 hnq_fresh
        have hdrain_eq : drain (f + 1) s (mk_status ((q, id) :: H')) (some q0) =
            drain f
              { s with
                tracepoint := s.timestamp + (q - q0)
                dumper_map := A ++ (id, sl2) :: B
                out := (s.out ++ [time_line (s.timestamp + (q - q0))]) ++ [l] }
              (mk_status (insort_pair (e2.1, id) H')) (some q0) := by
          show drain f
              (List.foldl drain_consume
                (s.log_time (addmod64 s.timestamp (submod64 q q0)) false,
                  (q, [id]) :: mk_status H') [id]).1
              ((List.foldl drain_consume
                (s.log_time (addmod64 s.timestamp (submod64 q q0)) false,
                  (q, [id]) :: mk_status H') [id]).2.drop 1)
              (some q0) = _
          rw [List.foldl_cons, List.foldl_nil, hs1]
          unfold drain_consume
          dsimp only
          rw [invoke_dumper_eq s.dumper_map id false sl hids hmem_sl]
          simp only [hdump0]
          dsimp only [List.head?, Option.map]
          rw [hupd, hstatus]
          rfl
        obtain ⟨p2, hp2a, hp2b, hout2, hts2, htp2⟩ := ih
          { s with
            tracepoint := s.timestamp + (q - q0)
            dumper_map := A ++ (id, sl2) :: B
            out := (s.out ++ [time_line (s.timestamp + (q - q0))]) ++ [l] }
          (insort_pair (e2.1, id) H') R' q hfuel2 hids2 hwfr2' hR'perm hR'sort
          hH2perm hH2sort (by omega) hR'gt hts hq62 rfl
        refine ⟨p2, hp2a, hp2b, ?_, ?_, ?_⟩
        · rw [hdrain_eq, hout2, hR]
          simp [ref_rest, List.append_assoc]
        · rw [hdrain_eq, hts2]
        · rw [hdrain_eq, htp2]

lemma drain_start (fuel : Nat) (s : top) (H R : List (Nat × String))
    (hfuel : R.length < fuel)
    (hids : (s.dumper_map.map Prod.fst).Nodup)
    (hwfr : ∀ pr ∈ s.dumper_map, pr.2.wfr)
    (hRperm : List.Perm R (slots_rem s.dumper_map))
    (hRsort : R.Pairwise key_lt)
    (hHperm : List.Perm H (heads_of s.dumper_map))
    (hHsort : H.Pairwise key_lt)
    (hts : s.timestamp < 2 ^ 62)
    (htp : s.tracepoint = s.timestamp) :
    (drain fuel s (mk_status H) none).out = s.out ++ ref_flush_out s.timestamp R ∧
    (drain fuel s (mk_status H) none).timestamp = s.timestamp ∧
    s.timestamp ≤ (drain fuel s (mk_status H) none).tracepoint ∧
    (drain fuel s (mk_status H) none).tracepoint < 2 ^ 63 := by
  cases fuel with
  | zero => omega
  | succ f =>
    cases H with
    | nil =>
      have hhe : heads_of s.dumper_map = [] := hHperm.symm.eq_nil
      have hR : R = [] := by
        cases hR0 : R with
        | nil => rfl
        | cons e R2 =>
          exfalso
          have hmem : e ∈ slots_rem s.dumper_map :=
            hRperm.mem_iff.mp (by rw [hR0]; exact List.mem_cons_self e R2)
          obtain ⟨h, hh, _⟩ := rem_key_ge_head s.dumper_map hwfr e hmem
          rw [hhe] at hh
          cases hh
      subst hR
      refine ⟨?_, rfl, le_of_eq htp.symm, by show s.tracepoint < 2 ^ 63; omega⟩
      show s.out = s.out ++ ([] : List String)
      exact (List.append_nil s.out).symm
    | cons qid H' =>
      obtain ⟨q, id⟩ := qid
      have hqmin : ∀ x ∈ (q, id) :: H', q ≤ x.1 := by
        intro x hx
        rcases List.mem_cons.mp hx with hx | hx
        · exact le_of_eq (by rw [hx])
        · exact le_of_lt ((List.pairwise_cons.mp hHsort).1 x hx)
      have hqid_heads : (q, id) ∈ heads_of s.dumper_map :=
        hHperm.mem_iff.mp (List.mem_cons_self _ _)
      obtain ⟨sl, l, r, hmem_sl, hslrem⟩ := mem_heads_of s.dumper_map q id hqid_heads
      obtain ⟨A, B, hAB⟩ := List.append_of_mem hmem_sl
      have hql_rem : (q, l) ∈ slots_rem s.dumper_map := by
        unfold slots_rem
        refine List.mem_flatMap.mpr ⟨(id, sl), hmem_sl, ?_⟩
        show (q, l) ∈ sl.rem
        rw [hslrem]
        exact List.mem_cons_self _ _
      have hqlR : (q, l) ∈ R := hRperm.mem_iff.mpr hql_rem
      have hminR : ∀ e ∈ R, q ≤ e.1 := by
        intro e he
        obtain ⟨h2, hh2, hle⟩ := rem_key_ge_head s.dumper_map hwfr e (hRperm.mem_iff.mp he)
        exact le_trans (hqmin h2 (hHperm.mem_iff.mpr hh2)) hle
      obtain ⟨R', hR⟩ := head_of_sorted_min R (q, l) hqlR hminR hRsort
      have hq62 : q < 2 ^ 62 := by
        obtain ⟨prr, hprr, hein⟩ := mem_slots_rem s.dumper_map (q, l) hql_rem
        exact slot_rem_bound prr.2 (hwfr prr hprr) (q, l) hein
      have hslwfr : sl.wfr := hwfr (id, sl) hmem_sl
      have hslne : sl.rem ≠ [] := by rw [hslrem]; exact List.cons_ne_nil _ _
      obtain ⟨sl2, e0, r0, hrem0, hdump0, hrem20, hwfr20⟩ := slot_consume sl hslwfr hslne
      rw [hslrem] at hrem0
      injection hrem0 with he0 hr0
      subst he0
      subst hr0
      have hkeysnd : (A.map Prod.fst ++ (id :: B.map Prod.fst)).Nodup := by
        have h1 := hids
        rw [hAB, List.map_append, List.map_cons] at h1
        exact h1
      have hidA : id ∉ A.map Prod.fst := by
        intro hmem'
        exact (List.nodup_append.mp hkeysnd).2.2 hmem' (List.mem_cons_self _ _)
      have hidB : id ∉ B.map Prod.fst :=
        (List.nodup_cons.mp (List.nodup_append.mp hkeysnd).2.1).1
      have hsr : slots_rem s.dumper_map =
          slots_rem A ++ (((q, l) :: r) ++ slots_rem B) := by
        rw [hAB, slots_rem_append, slots_rem_cons]
        show slots_rem A ++ (sl.rem ++ slots_rem B) = _
        rw [hslrem]
      have hremnd : ((slots_rem s.dumper_map).map Prod.fst).Nodup := by
        refine (hRperm.map Prod.fst).nodup_iff.mp ?_
        have h2 : (R.map Prod.fst).Pairwise (· < ·) :=
          List.pairwise_map.mpr (hRsort.imp (fun h => h))
        exact h2.imp Nat.ne_of_lt
      have hsrknd : ((slots_rem A).map Prod.fst ++ (((q, l) :: r).map Prod.fst ++
          (slots_rem B).map Prod.fst)).Nodup := by
        have h1 := hremnd
        rw [hsr, List.map_append, List.map_append] at h1
        exact h1
      have hheads : heads_of s.dumper_map = heads_of A ++ ((q, id) :: heads_of B) := by
        rw [hAB, heads_of_append, heads_of_cons]
        show heads_of A ++ ((match sl.rem with
          | [] => ([] : List (Nat × String))
          | e :: _ => [(e.1, id)]) ++ heads_of B) = _
        rw [hslrem]
        rfl
      have hH'perm : List.Perm H' (heads_of A ++ heads_of B) := by
        have h1 : List.Perm ((q, id) :: H') ((q, id) :: (heads_of A ++ heads_of B)) :=
          hHperm.trans (by rw [hheads]; exact List.perm_middle)
        exact h1.cons_inv
      have hupd : s.dumper_map.map (fun pr => if pr.1 = id then (id, sl2) else pr) =
          A ++ (id, sl2) :: B := by
        rw [hAB, List.map_append, List.map_cons]
        rw [map_update_of_not_mem A id _ hidA, map_update_of_not_mem B id _ hidB]
        show A ++ (if (id, sl).1 = id then (id, sl2) else (id, sl)) :: B = _
        rw [if_pos rfl]
      have hwfr2' : ∀ pr ∈ A ++ (id, sl2) :: B, pr.2.wfr := by
        intro pr hpr
        rcases List.mem_append.mp hpr with hpr | hpr
        · exact hwfr pr (by rw [hAB]; exact List.mem_append.mpr (Or.inl hpr))
        · rcases List.mem_cons.mp hpr with hpr | hpr
          · rw [hpr]
            exact hwfr20
          · exact hwfr pr
              (by rw [hAB]; exact List.mem_append.mpr (Or.inr (List.mem_cons_of_mem _ hpr)))
      have hids2 : ((A ++ (id, sl2) :: B).map Prod.fst).Nodup := by
        rw [List.map_append, List.map_cons]
        exact hkeysnd
      have hslots2 : slots_rem (A ++ (id, sl2) :: B) =
          slots_rem A ++ (r ++ slots_rem B) := by
        rw [slots_rem_append, slots_rem_cons]
        show slots_rem A ++ (sl2.rem ++ slots_rem B) = _
        rw [hrem20]
      have hR'perm : List.Perm R' (slots_rem (A ++ (id, sl2) :: B)) := by
        have h1 : List.Perm ((q, l) :: R')
            ((q, l) :: (slots_rem A ++ (r ++ slots_rem B))) := by
          refine (hR ▸ hRperm).trans ?_
          rw [hsr]
          show List.Perm (slots_rem A ++ ((q, l) :: (r ++ slots_rem B))) _
          exact List.perm_middle
        rw [hslots2]
        exact h1.cons_inv
      have hRcons := hR ▸ hRsort
      have hR'sort : R'.Pairwise key_lt := (List.pairwise_cons.mp hRcons).2
      have hR'gt : ∀ e ∈ R', q < e.1 := fun e he => (List.pairwise_cons.mp hRcons).1 e he
      have hfuel2 : R'.length < f := by
        have h1 : R.length = R'.length + 1 := by rw [hR]; rfl
        omega
      have hs1 : s.log_time (addmod64 s.timestamp (submod64 q q)) false = s := by
        rw [submod64_eq q q le_rfl (by omega),
          addmod64_eq s.timestamp (q - q) (by omega)]
        unfold top.log_time
        rw [if_neg (by simp [htp])]
      cases r with
      | nil =>
        have hheads2 : heads_of (A ++ (id, sl2) :: B) = heads_of A ++ heads_of B := by
          rw [heads_of_append, heads_of_cons]
          show heads_of A ++ ((match sl2.rem with
            | [] => ([] : List (Nat × String))
            | e :: _ => [(e.1, id)]) ++ heads_of B) = _
          rw [hrem20]
          rfl
        have hdrain_eq : drain (f + 1) s (mk_status ((q, id) :: H')) none =
            drain f
              { s with
                dumper_map := A ++ (id, sl2) :: B
                out := s.out ++ [l] }
              (mk_status H') (some q) := by
          show drain f
              (List.foldl drain_consume
                (s.log_time (addmod64 s.timestamp (submod64 q q)) false,
                  (q, [id]) :: mk_status H') [id]).1
              ((List.foldl drain_consume
                (s.log_time (addmod64 s.timestamp (submod64 q q)) false,
                  (q, [id]) :: mk_status H') [id]).2.drop 1)
              (some q) = _
          rw [List.foldl_cons, List.foldl_nil, hs1]
          unfold drain_consume
          dsimp only
          rw [invoke_dumper_eq s.dumper_map id false sl hids hmem_sl]
          simp only [hdump0]
          dsimp only [List.head?, Option.map]
          rw [hupd]
          rfl
        obtain ⟨p2, hp2a, hp2b, hout2, hts2, htp2⟩ := drain_go f
          { s with
            dumper_map := A ++ (id, sl2) :: B
            out := s.out ++ [l] }
          H' R' q q hfuel2 hids2 hwfr2' hR'perm hR'sort (hheads2.symm ▸ hH'perm)
          (List.pairwise_cons.mp hHsort).2 le_rfl hR'gt hts hq62
          (by show s.tracepoint = s.timestamp + (q - q); omega)
        refine ⟨?_, ?_, ?_, ?_⟩
        · rw [hdrain_eq, hout2, hR]
          simp [ref_flush_out, List.append_assoc]
        · rw [hdrain_eq, hts2]
        · rw [hdrain_eq, htp2]
          show s.timestamp ≤ s.timestamp + (p2 - q)
          omega
        · rw [hdrain_eq, htp2]
          show s.timestamp + (p2 - q) < 2 ^ 63
          omega
      | cons e2 r2 =>
        have hslpw := slot_rem_pairwise sl hslwfr
        rw [hslrem, List.map_cons, List.map_cons] at hslpw
        have hqnq : q < e2.1 :=
          (List.pairwise_cons.mp hslpw).1 e2.1 (List.mem_cons_self _ _)
        have hnq_rem : e2.1 ∈ ((q, l) :: e2 :: r2).map Prod.fst := by
          rw [List.map_cons, List.map_cons]
          exact List.mem_cons_of_mem _ (List.mem_cons_self _ _)
        have hnq_fresh : e2.1 ∉ H'.map Prod.fst := by
          intro hmem'
          have h1 : e2.1 ∈ (heads_of A ++ heads_of B).map Prod.fst :=
            ((hH'perm.map Prod.fst).mem_iff).mp hmem'
          rw [List.map_append] at h1
          obtain ⟨hnd1, hnd2, hdis1⟩ := List.nodup_append.mp hsrknd
          obtain ⟨hnd3, hnd4, hdis2⟩ := List.nodup_append.mp hnd2
          rcases List.mem_append.mp h1 with h1 | h1
          · obtain ⟨hpair, hpmem, hfst⟩ := List.mem_map.mp h1
            obtain ⟨l2, hl2⟩ := heads_keys_sub_rem_keys A hpair hpmem
            have h3 : e2.1 ∈ (slots_rem A).map Prod.fst := by
              rw [← hfst]
              exact List.mem_map.mpr ⟨(hpair.1, l2), hl2, rfl⟩
            exact hdis1 h3 (List.mem_append.mpr (Or.inl hnq_rem))
          · obtain ⟨hpair, hpmem, hfst⟩ := List.mem_map.mp h1
            obtain ⟨l2, hl2⟩ := heads_keys_sub_rem_keys B hpair hpmem
            have h3 : e2.1 ∈ (slots_rem B).map Prod.fst := by
              rw [← hfst]
              exact List.mem_map.mpr ⟨(hpair.1, l2), hl2, rfl⟩
            exact hdis2 hnq_rem h3
        have hstatus : status_insert ((q, [id]) :: mk_status H') e2.1 id =
            (q, [id]) :: mk_status (insort_pair (e2.1, id) H') :=
          status_insert_head q id H' e2.1 id hqnq hnq_fresh
        have hheads2 : heads_of (A ++ (id, sl2) :: B) =
            heads_of A ++ ((e2.1, id) :: heads_of B) := by
          rw [heads_of_append, heads_of_cons]
          show heads_of A ++ ((match sl2.rem with
            | [] => ([] : List (Nat × String))
            | e :: _ => [(e.1, id)]) ++ heads_of B) = _
          rw [hrem20]
          rfl
        have hH2perm : List.Perm (insort_pair (e2.1, id) H')
            (heads_of (A ++ (id, sl2) :: B)) := by
          rw [hheads2]
          refine (insort_pair_perm (e2.1, id) H').trans ?_
          refine (List.Perm.cons (e2.1, id) hH'perm).trans ?_
          exact List.perm_middle.symm
        have hH2sort := insort_pair_pairwise (e2.1, id) H'
          (List.pairwise_cons.mp hHsort).2 hnq_fresh
        have hdrain_eq : drain (f + 1) s (mk_status ((q, id) :: H')) none =
            drain f
              { s with
                dumper_map := A ++ (id, sl2) :: B
                out := s.out ++ [l] }
              (mk_status (insort_pair (e2.1, id) H')) (some q) := by
          show drain f
              (List.foldl drain_consume
                (s.log_time (addmod64 s.timestamp (submod64 q q)) false,
                  (q, [id]) :: mk_status H') [id]).1
              ((List.foldl drain_consume
                (s.log_time (addmod64 s.timestamp (submod64 q q)) false,
                  (q, [id]) :: mk_status H') [id]).2.drop 1)
              (some q) = _
          rw [List.foldl_cons, List.foldl_nil, hs1]
          unfold drain_consume
          dsimp only
          rw [invoke_dumper_eq s.dumper_map id false sl hids hmem_sl]
          simp only [hdump0]
          dsimp only [List.head?, Option.map]
          rw [hupd, hstatus]
          rfl
        obtain ⟨p2, hp2a, hp2b, hout2, hts2, htp2⟩ := drain_go f
          { s with
            dumper_map := A ++ (id, sl2) :: B
            out := s.out ++ [l] }
          (insort_pair (e2.1, id) H') R' q q hfuel2 hids2 hwfr2' hR'perm hR'sort
          hH2perm hH2sort le_rfl hR'gt hts hq62
          (by show s.tracepoint = s.timestamp + (q - q); omega)
        refine ⟨?_, ?_, ?_, ?_⟩
        · rw [hdrain_eq, hout2, hR]
          simp [ref_flush_out, List.append_assoc]
        · rw [hdrain_eq, hts2]
        · rw [hdrain_eq, htp2]
          show s.timestamp ≤ s.timestamp + (p2 - q)
          omega
        · rw [hdrain_eq, htp2]
          show s.timestamp + (p2 - q) < 2 ^ 63
          omega

lemma top.core_spec (s : top) (hwf : s.sess_wf) :
    ∃ R : List (Nat × String),
      List.Perm R (pend_entries s.dumper_map) ∧ R.Pairwise key_lt ∧
      s.time_update_core.out = s.out ++ ref_flush_out s.timestamp R ∧
      s.time_update_core.timestamp = s.timestamp ∧
      s.timestamp ≤ s.time_update_core.tracepoint ∧
      s.time_update_core.tracepoint < 2 ^ 63 := by
  obtain ⟨heqtp, hts62, hnd, hpnd, hwf_each⟩ := hwf
  have hwf2 : ∀ p ∈ s.dumper_map, p.2.wf := hwf_each
  obtain ⟨H, hfp, hHpw, hHperm⟩ := first_pass_spec s.dumper_map hwf2 hpnd
  have hprem : slots_rem (s.dumper_map.map (fun p => (p.1, (p.2.dump true).1))) =
      pend_entries s.dumper_map := peek_rem_pend s.dumper_map hwf2
  have hcore : s.time_update_core = drain s.core_fuel
      { s with
        dumper_map := (first_pass s.dumper_map).slots
        out := s.out ++ (first_pass s.dumper_map).outs }
      (first_pass s.dumper_map).status (first_pass s.dumper_map).first := rfl
  rw [hfp] at hcore
  dsimp only at hcore
  rw [List.append_nil] at hcore
  have hkeys : (s.dumper_map.map (fun p => (p.1, (p.2.dump true).1))).map Prod.fst =
      s.dumper_map.map Prod.fst := by
    rw [List.map_map]
    rfl
  have hids2 : ((s.dumper_map.map (fun p => (p.1, (p.2.dump true).1))).map
      Prod.fst).Nodup := by
    rw [hkeys]
    exact hnd
  have hwfr2 : ∀ pr ∈ s.dumper_map.map (fun p => (p.1, (p.2.dump true).1)),
      pr.2.wfr := by
    intro pr hpr
    obtain ⟨p0, hp0, hq⟩ := List.mem_map.mp hpr
    rw [← hq]
    exact slot_peek_wfr p0.2 (hwf2 p0 hp0)
  have hRperm2 : List.Perm (sort_pairs (pend_entries s.dumper_map))
      (slots_rem (s.dumper_map.map (fun p => (p.1, (p.2.dump true).1)))) := by
    rw [hprem]
    exact sort_pairs_perm _
  have hRsort := sort_pairs_pairwise (pend_entries s.dumper_map) hpnd
  have hfuel : (sort_pairs (pend_entries s.dumper_map)).length < s.core_fuel := by
    have h1 := (sort_pairs_perm (pend_entries s.dumper_map)).length_eq
    have h2 := pend_entries_len_lt s.dumper_map hwf2
    show _ < 1 + (s.dumper_map.map (fun p => slot_fuel p.2)).sum
    omega
  obtain ⟨hout, htsd, htpd1, htpd2⟩ := drain_start s.core_fuel
    { s with
      dumper_map := s.dumper_map.map (fun p => (p.1, (p.2.dump true).1))
      out := s.out }
    H (sort_pairs (pend_entries s.dumper_map)) hfuel hids2 hwfr2 hRperm2 hRsort
    hHperm hHpw hts62 heqtp.symm
  refine ⟨sort_pairs (pend_entries s.dumper_map), sort_pairs_perm _, hRsort,
    ?_, ?_, ?_, ?_⟩
  · rw [hcore]
    exact hout
  · rw [hcore]
    exact htsd
  · rw [hcore]
    exact htpd1
  · rw [hcore]
    exact htpd2

-- ------------------------------------------------------------------
-- C1: the merge flush

/-- C1 counterexample: the claim quantifies over every set of buffered
signals (capacity > 1) recorded under a strictly increasing shared
counter, but it fails for an overflowed buffer.  c1x_sig is a capacity-2
signal given three set calls under the increasing counter 1, 2, 3: the
third call overflows (write = depth = 2).  The flush then emits 4 lines
and re-dumps slot 0 out of order ("b01 !" again after "b10 !"), so no
ascending arrangement R of the two pending samples matches the claimed
sorted-merge output shape (which would have exactly 3 lines). -/
theorem c1_counterexample :
    c1x_sig.write = (c1x_sig.depth : Int) ∧
    c1x_top.time_update_core.out = ["b01 !", "#1", "b10 !", "b01 !"] ∧
    ¬ ∃ R : List (Nat × String),
        List.Perm R (pend_entries c1x_top.dumper_map) ∧ R.Pairwise key_lt ∧
        c1x_top.time_update_core.out =
          c1x_top.out ++ ref_flush_out c1x_top.timestamp R := by
  refine ⟨by decide, by decide, ?_⟩
  rintro ⟨R, hperm, hsort, hout⟩
  have hlen : R.length = 2 := by
    have h1 := hperm.length_eq
    have h2 : (pend_entries c1x_top.dumper_map).length = 2 := by decide
    omega
  obtain ⟨a, b, hab⟩ := List.length_eq_two.mp hlen
  subst hab
  obtain ⟨qa, la⟩ := a
  obtain ⟨qb, lb⟩ := b
  have h3 : c1x_top.time_update_core.out.length = 4 := by decide
  rw [hout] at h3
  have h4 : (c1x_top.out ++
      ref_flush_out c1x_top.timestamp [(qa, la), (qb, lb)]).length = 3 := by
    show ([] ++ (la :: time_line (c1x_top.timestamp + (qb - qa)) :: lb :: [])).length = 3
    rfl
  omega

/-- C1 (amended: the claim additionally requires that no signal buffer
has overflowed — c1_counterexample shows an overflowed capacity-2 buffer
makes the flush re-dump slot 0 out of order — and the final #t line of a
concluding time_update_abs(t) appears when t lies beyond the synthesized
tracepoint; both conditions hold in the claim's own scenario): for every
quiescent well-formed session (sess_wf: clock in sync, distinct
identifiers, pending samples recorded under globally distinct strictly
increasing shared sequences, no overflow), one flush writes exactly the
pending samples sorted by ascending sequence: the smallest (baseline)
bucket's value line comes first with no # line before it, every later
bucket is preceded by #(timestamp + (bucket_seq - baseline)), the
session's logical timestamp is not moved by these lines, and a
time_update_abs(t) with t beyond the synthesized tracepoint ends the
output with #t and adopts t.  The witness instantiates the claim's own
scenario: two capacity-10 signals, 6 interleaved sets under shared
sequences 42..47, then time_update_abs(10), emitting each signal's
values in increasing sequence order and ending in #10. -/
theorem c1_buffered_merge_flush (s : top) (t : Int) (hwf : s.sess_wf)
    (ht0 : 0 ≤ t) (ht1 : t < 2 ^ 63) :
    ∃ R : List (Nat × String),
      List.Perm R (pend_entries s.dumper_map) ∧ R.Pairwise key_lt ∧
      s.time_update_core.out = s.out ++ ref_flush_out s.timestamp R ∧
      s.time_update_core.timestamp = s.timestamp ∧
      (s.time_update_core.tracepoint < t.toNat →
        (s.time_update_abs t).out =
          s.out ++ ref_flush_out s.timestamp R ++ [time_line t.toNat] ∧
        (s.time_update_abs t).timestamp = t.toNat) := by
  obtain ⟨R, hperm, hsort, hout, htsc, htp1, htp2⟩ := s.core_spec hwf
  refine ⟨R, hperm, hsort, hout, htsc, fun hgt => ?_⟩
  have h64 : (2 : Int) ^ 64 = 18446744073709551616 := by norm_num
  have hmod : (t.emod (2 ^ 64)).toNat = t.toNat := by
    have hx : t.emod (2 ^ 64) = t % 18446744073709551616 := by rw [h64]; rfl
    rw [hx]
    omega
  have he2 : to_int64 s.time_update_core.tracepoint
      = (s.time_update_core.tracepoint : Int) := by
    unfold to_int64
    rw [if_pos htp2]
  rw [time_update_abs_eq]
  rw [if_pos (by rw [hmod, htsc]; omega)]
  rw [he2]
  rw [if_neg (show ¬ t ≤ (s.time_update_core.tracepoint : Int) by omega)]
  rw [hmod]
  unfold top.log_time
  rw [if_pos (by simp; omega)]
  constructor
  · show s.time_update_core.out ++ [time_line t.toNat] = _
    rw [hout]
  · rfl

/-- Witness for c1_buffered_merge_flush: the claim's own scenario
c1_pre (two capacity-10 signals, 6 interleaved sets under shared
sequences 42..47 after the header flush) with t = 10: the flush writes
each signal's values in globally increasing sequence order with
synthesized #1..#5 lines and the update ends in #10. -/
theorem c1_buffered_merge_flush_witness :
    c1_pre.sess_wf ∧ (0 : Int) ≤ 10 ∧ (10 : Int) < 2 ^ 63 ∧
    (∃ R : List (Nat × String),
      List.Perm R (pend_entries c1_pre.dumper_map) ∧ R.Pairwise key_lt ∧
      c1_pre.time_update_core.out = c1_pre.out ++ ref_flush_out c1_pre.timestamp R ∧
      c1_pre.time_update_core.timestamp = c1_pre.timestamp ∧
      (c1_pre.time_update_core.tracepoint < (10 : Int).toNat →
        (c1_pre.time_update_abs 10).out =
          c1_pre.out ++ ref_flush_out c1_pre.timestamp R ++
            [time_line (10 : Int).toNat] ∧
        (c1_pre.time_update_abs 10).timestamp = (10 : Int).toNat)) ∧
    c1_pre.time_update_core.tracepoint < (10 : Int).toNat ∧
    (c1_pre.time_update_abs 10).out =
      ["#0", "b010001 !", "#1", "b010010 !", "#2", "b0100001 \"", "#3",
       "b0100010 \"", "#4", "b010011 !", "#5", "b010100 !", "#10"] :=
  ⟨by decide, by norm_num, by norm_num,
   c1_buffered_merge_flush c1_pre 10 (by decide) (by norm_num) (by norm_num),
   by decide, by decide⟩

-- ------------------------------------------------------------------
-- C10: no baseline from the peek pass

/-- C10 (amended: part (iii), writing the first bucket at the current
timestamp with no preceding # line, additionally requires the session
clock to be in sync — timestamp = tracepoint — which holds in every
quiescent well-formed session but is violated in c10_counterexample,
where a backwards time_update_abs left tracepoint 15 above timestamp 10
and the next drain emits #10 before the first bucket value): (i) a dump
callback invoked with start = true never returns a completed-write
(dumped) sequence, for every registered slot of any capacity (including
capacity 1 and destroyed slots); (ii) consequently the peek pass of
every merge/flush establishes no baseline (first_sequence stays
first_unset); (iii) in a well-formed session the drain pass adopts the
smallest pending sequence bucket as the baseline and writes that
bucket's value line first, at the current timestamp, with no # line
emitted before it (the flush output starts with the baseline value). -/
theorem c10_peek_no_baseline :
    (∀ sl : slot_fn, (sl.dump true).2.2.dumped = none) ∧
    (∀ slots : List (String × slot_fn), (first_pass slots).first = none) ∧
    ∀ s : top, s.sess_wf →
      ∃ R : List (Nat × String),
        List.Perm R (pend_entries s.dumper_map) ∧ R.Pairwise key_lt ∧
        s.time_update_core.out = s.out ++ ref_flush_out s.timestamp R := by
  refine ⟨slot_peek_dumped,
    fun slots => foldl_first_pass_first slots ⟨[], [], [], none⟩,
    fun s h => ?_⟩
  obtain ⟨R, h1, h2, h3, _⟩ := s.core_spec h
  exact ⟨R, h1, h2, h3⟩

/-- Witness for c10_peek_no_baseline: the well-formed session c1_pre;
its flush output starts with the baseline bucket value line b010001 !
directly (no # line in between). -/
theorem c10_peek_no_baseline_witness :
    c1_pre.sess_wf ∧
    (∃ R : List (Nat × String),
      List.Perm R (pend_entries c1_pre.dumper_map) ∧ R.Pairwise key_lt ∧
      c1_pre.time_update_core.out =
        c1_pre.out ++ ref_flush_out c1_pre.timestamp R) ∧
    c1_pre.time_update_core.out =
      ["#0", "b010001 !", "#1", "b010010 !", "#2", "b0100001 \"", "#3",
       "b0100010 \"", "#4", "b010011 !", "#5", "b010100 !"] :=
  ⟨by decide, c10_peek_no_baseline.2.2 c1_pre (by decide), by decide⟩

end VcdTracer

